import Mathlib

/-!
QtKeyboardFriendlyGraphicsView: keyboard navigation over a graphics scene.

A shallow embedding of `qtkeyboardfriendlygraphicsview.cpp`.

* Coordinates and distances are `double` in the source.  The type `double` below is IEEE 754
  binary64 with its signed zeros, subnormal numbers, infinities and NaN; `+`, `-`, `*`,
  `sqrt`, `abs` and `<` are the operations of IEEE 754, each rounded on its own to nearest,
  ties to even (the default rounding mode, which the source never changes).  An expression
  is evaluated operation by operation in binary64: no fused multiply-add, no wider
  intermediate format.  `std::sqrt` is correctly rounded, as IEEE 754 requires.
* `std::mt19937` is the generator of the C++ standard; `std::uniform_int_distribution` is
  the one of libstdc++ (the standard leaves its algorithm open).
* A `QGraphicsItem*` is embedded as the `id` of the item it points to; the null pointer is
  `none`.  Dereferencing a null pointer is the fault `Fault.nullDereference`.
* The scene is flat (no parent items, groups or panels) and active.  The toolkit
  primitives (`setSelected`, `setFocus`, `clearFocus`, `setEnabled`, `setPos`) follow the
  Qt documentation of `QGraphicsItem`.
* `assert`s and `qDebug` warnings have no effect on the state and are not part of the
  embedding; several of the asserted facts are proved below as theorems.
-/

namespace ribi

/-! ## Floating-point numbers -/

/-- An IEEE 754 binary64 number (`double`).  A finite number is a sign and a magnitude `n`
counted in units of `2 ^ (-1074)`, the smallest positive `double`: its value is
`(-1) ^ sign * n * 2 ^ (-1074)`.  The finite numbers of binary64 are those whose magnitude
is below `2 ^ 2098` and has at most 53 significant bits; `finite true 0` is the negative
zero. -/
inductive double where
  | finite (sign : Bool) (n : Nat)
  | inf (sign : Bool)
  | nan
deriving DecidableEq, Repr

namespace double

/-- The bits of `n`, counted by halving; `fuel` bounds the number of halvings. -/
def bitLengthLoop : Nat → Nat → Nat
  | 0, _ => 0
  | fuel + 1, n => if n = 0 then 0 else bitLengthLoop fuel (n / 2) + 1

/-- The number of bits of `n`: the least `k` with `n < 2 ^ k`. -/
def bitLength (n : Nat) : Nat := bitLengthLoop n n

/-- The quotient `n / 2 ^ shift`, rounded to the nearest integer, a tie to the even one. -/
def roundNearestEven (n shift : Nat) : Nat :=
  let q := n / 2 ^ shift
  let r := n % 2 ^ shift
  let half := 2 ^ (shift - 1)
  let up := decide (shift ≠ 0) &&
    (decide (half < r) || (decide (r = half) && decide (q % 2 = 1)))
  if up then q + 1 else q

/-- The number of magnitude `n` units; a magnitude of `2 ^ 1024` or more is an infinity. -/
def ofMagnitude (sign : Bool) (n : Nat) : double :=
  if 2 ^ 2098 ≤ n then inf sign else finite sign n

/-- Rounding to nearest, ties to even, of the exact magnitude `n * 2 ^ (-k)` units to a
`double`: the significand keeps 53 bits, but no bit below one unit (subnormal numbers). -/
def round (sign : Bool) (n k : Nat) : double :=
  let shift := max (bitLength n - 53) k
  ofMagnitude sign (roundNearestEven n shift * 2 ^ (shift - k))

/-- Unary minus. -/
def neg : double → double
  | finite s n => finite (!s) n
  | inf s => inf (!s)
  | nan => nan

/-- The function `std::abs` on a `double`. -/
def abs : double → double
  | finite _ n => finite false n
  | inf _ => inf false
  | nan => nan

/-- The sum of two numbers.  An exact sum of zero is the positive zero, except that the sum
of two negative zeros is the negative zero. -/
def add : double → double → double
  | finite sa na, finite sb nb =>
    if sa = sb then round sa (na + nb) 0
    else if nb < na then round sa (na - nb) 0
    else if na < nb then round sb (nb - na) 0
    else finite false 0
  | finite _ _, inf sb => inf sb
  | inf sa, finite _ _ => inf sa
  | inf sa, inf sb => if sa = sb then inf sa else nan
  | _, _ => nan

/-- The difference of two numbers. -/
def sub (a b : double) : double := add a (neg b)

/-- The product of two numbers. -/
def mul : double → double → double
  | finite sa na, finite sb nb => round (sa != sb) (na * nb) 1074
  | finite sa na, inf sb => if na = 0 then nan else inf (sa != sb)
  | inf sa, finite sb nb => if nb = 0 then nan else inf (sa != sb)
  | inf sa, inf sb => inf (sa != sb)
  | _, _ => nan

/-- The integer square root, bit by bit from bit `k - 1` down: `r` is the root found so
far. -/
def sqrtLoop (n : Nat) : Nat → Nat → Nat
  | 0, r => r
  | k + 1, r =>
    if (r + 2 ^ k) * (r + 2 ^ k) ≤ n then sqrtLoop n k (r + 2 ^ k) else sqrtLoop n k r

/-- The integer square root of `n`: the greatest `r` with `r * r ≤ n`. -/
def natSqrt (n : Nat) : Nat := sqrtLoop n (bitLength n / 2 + 1) 0

/-- The function `std::sqrt`, correctly rounded.  The root of `n` units is
`sqrt (n * 2 ^ 1074)` units; its integer part `r` is taken with one more bit, set when the
root is not exact, so that the rounding sees on which side of a tie the root lies. -/
def sqrt : double → double
  | finite s n =>
    if n = 0 then finite s 0
    else if s then nan
    else
      let r := natSqrt (n * 2 ^ 1074)
      round false (2 * r + (if r * r = n * 2 ^ 1074 then 0 else 1)) 1
  | inf s => if s then nan else inf false
  | nan => nan

/-- The comparison `a < b`: false when an operand is NaN; the two zeros are equal. -/
def lt : double → double → Bool
  | finite sa na, finite sb nb =>
    match sa, sb with
    | false, false => decide (na < nb)
    | true, true => decide (nb < na)
    | true, false => decide (0 < na) || decide (0 < nb)
    | false, true => false
  | finite _ _, inf sb => !sb
  | inf sa, finite _ _ => sa
  | inf sa, inf sb => sa && !sb
  | _, _ => false

/-- The `double` nearest to an integer. -/
def ofInt (z : Int) : double := round (decide (z < 0)) (z.natAbs * 2 ^ 1074) 0

/-- A NaN. -/
def isNaN : double → Bool
  | nan => true
  | _ => false

/-- A finite number (neither an infinity nor a NaN). -/
def isFinite : double → Bool
  | finite _ _ => true
  | _ => false

/-- The exact value of a finite number in units of `2 ^ (-1074)`; zero for an infinity and for
a NaN. -/
def toUnits : double → Int
  | finite s n => if s then -(n : Int) else (n : Int)
  | _ => 0

/-- The terms of `double` that are numbers of binary64: a finite magnitude is below
`2 ^ 2098` and has at most 53 significant bits. -/
def IsBinary64 : double → Prop
  | finite _ n => n < 2 ^ 2098 ∧ 2 ^ (bitLength n - 53) ∣ n
  | _ => True

end double

instance : Add double := ⟨double.add⟩

instance : Sub double := ⟨double.sub⟩

instance : Mul double := ⟨double.mul⟩

instance : Neg double := ⟨double.neg⟩

instance : LT double := ⟨fun a b => double.lt a b = true⟩

instance (a b : double) : Decidable (a < b) :=
  inferInstanceAs (Decidable (double.lt a b = true))

/-- A literal such as `0.0` or `10.0`. -/
instance (n : Nat) : OfNat double n := ⟨double.ofInt n⟩

/-- The constant `std::numeric_limits<double>::max()`, `(2 ^ 53 - 1) * 2 ^ 971`. -/
def DBL_MAX : double := .finite false ((2 ^ 53 - 1) * 2 ^ 2045)

/-! ## Data model -/

/-- Undefined behaviour reached by the source: a member call through a null pointer. -/
inductive Fault where
  | nullDereference
deriving DecidableEq, Repr

/-- Result of a function that can dereference a null pointer. -/
inductive Result (α : Type) where
  | ok (value : α)
  | fault (f : Fault)
deriving DecidableEq, Repr

/-- Sequencing of two fallible computations. -/
def Result.bind {α β : Type} (r : Result α) (k : α → Result β) : Result β :=
  match r with
  | .ok a => k a
  | .fault f => .fault f

/-- A point of the scene (`QPointF`). -/
structure QPointF where
  x : double
  y : double
deriving DecidableEq, Repr

/-- The attributes of a Qt `QGraphicsItem` that the source reads or writes: position, the
three flags of `flags()`, visibility, enabledness and selection.  The field `id` stands for
the address of the item: two pointers are equal exactly when the ids are. -/
structure QGraphicsItem where
  id : Nat
  pos : QPointF
  ItemIsMovable : Bool
  ItemIsSelectable : Bool
  ItemIsFocusable : Bool
  isVisible : Bool
  isEnabled : Bool
  isSelected : Bool
deriving DecidableEq, Repr

/-- A Qt `QGraphicsScene`: its items in the order `items()` lists them, and the pointer to
the item that has keyboard focus (if any). -/
structure QGraphicsScene where
  items : List QGraphicsItem
  focus : Option Nat
deriving DecidableEq, Repr

/-- The view is identified with its scene: `q.items()` lists the items of `q.GetScene()`. -/
abbrev QtKeyboardFriendlyGraphicsView := QGraphicsScene

/-- Modelled from the spec: the enumeration `Direction`.  Its declaration is in the header
`qtkeyboardfriendlygraphicsview.h`, which is not among the sources; the enumerators are the
four that the `switch` statements of the source list. -/
inductive Direction where
  | above
  | below
  | left
  | right
deriving DecidableEq, Repr

/-- The values of `event->key()` (Qt `Qt::Key`) that the source distinguishes. -/
inductive Key where
  | Key_Up
  | Key_Right
  | Key_Down
  | Key_Left
  | Key_Space
  | Key_Other (code : Nat)
deriving DecidableEq, Repr

/-- A `QKeyEvent`: the key and the two modifiers the source tests. -/
structure QKeyEvent where
  key : Key
  ControlModifier : Bool
  ShiftModifier : Bool
deriving DecidableEq, Repr

/-! ## Toolkit primitives (Qt)

The toolkit is not part of the sources; these definitions follow the documented behaviour
of `QGraphicsScene` and `QGraphicsItem`. -/

namespace QGraphicsScene

/-- Dereference an item pointer in the scene. -/
def item? (s : QGraphicsScene) (p : Nat) : Option QGraphicsItem :=
  s.items.find? (fun item => item.id == p)

/-- Qt `QGraphicsScene::focusItem()`: the item that has focus, or null. -/
def focusItem (s : QGraphicsScene) : Option QGraphicsItem :=
  match s.focus with
  | none => none
  | some p => s.item? p

/-- Qt `QGraphicsScene::selectedItems()`: the selected items of the scene (Qt fixes no
order; the loops of the source over this list do not depend on it). -/
def selectedItems (s : QGraphicsScene) : List QGraphicsItem :=
  s.items.filter (fun item => item.isSelected)

/-- Write through an item pointer: apply `f` to the item at address `p`. -/
def modifyItem (s : QGraphicsScene) (p : Nat) (f : QGraphicsItem → QGraphicsItem) :
    QGraphicsScene :=
  { s with items := s.items.map (fun item => if item.id = p then f item else item) }

/-- Qt `QGraphicsItem::setSelected`: only a visible, enabled, selectable item can be selected;
asking to select any other item leaves it unselected. -/
def setSelected (s : QGraphicsScene) (p : Nat) (selected : Bool) : QGraphicsScene :=
  s.modifyItem p (fun item =>
    { item with
      isSelected := selected && item.ItemIsSelectable && item.isEnabled && item.isVisible })

/-- Qt `QGraphicsItem::clearFocus`: if the item has focus, the scene has no focus item
afterwards. -/
def clearFocus (s : QGraphicsScene) (p : Nat) : QGraphicsScene :=
  if s.focus = some p then { s with focus := none } else s

/-- Qt `QGraphicsItem::setFocus`: an enabled, focusable, visible item of the scene becomes
the focus item; any other item does not gain focus.  The source calls it on visible,
focusable items only. -/
def setFocus (s : QGraphicsScene) (p : Nat) : QGraphicsScene :=
  match s.item? p with
  | none => s
  | some item =>
    if item.isEnabled && item.ItemIsFocusable && item.isVisible then
      { s with focus := some p }
    else s

/-- Qt `QGraphicsItem::setEnabled`: disabling an item first takes focus and selection from
it; enabling only sets the attribute. -/
def setEnabled (s : QGraphicsScene) (p : Nat) (enabled : Bool) : QGraphicsScene :=
  match s.item? p with
  | none => s
  | some item =>
    if item.isEnabled = enabled then s
    else if enabled then
      s.modifyItem p (fun item => { item with isEnabled := true })
    else
      (s.clearFocus p).modifyItem p
        (fun item => { item with isSelected := false, isEnabled := false })

end QGraphicsScene

/-! ## The navigation functions of `qtkeyboardfriendlygraphicsview.cpp` -/

/-- Sum of two points: `QPointF::operator+`. -/
def QPointF.add (a b : QPointF) : QPointF := ⟨a.x + b.x, a.y + b.y⟩

/-- Source `DoSelect`: select the item, if there is one. -/
def DoSelect (q : QGraphicsScene) (nsi : Option QGraphicsItem) : QGraphicsScene :=
  match nsi with
  | none => q
  | some item => q.setSelected item.id true

/-- Source `DoFocus`: give focus to the item, if there is one. -/
def DoFocus (q : QGraphicsScene) (nsi : Option QGraphicsItem) : QGraphicsScene :=
  match nsi with
  | none => q
  | some item => q.setFocus item.id

/-- Source `GetDistance`: the distance between two points, in `double` arithmetic. -/
def GetDistance (a b : QPointF) : double :=
  let dx := a.x - b.x
  let dy := a.y - b.y
  double.sqrt ((dx * dx) + (dy * dy))

/-- The loop of `GetClosest`, carrying `best` and `best_distance`. -/
def GetClosestLoop (focus_item : Option QGraphicsItem) :
    List QGraphicsItem → Option QGraphicsItem → double →
      Result (Option QGraphicsItem)
  | [], best, _ => .ok best
  | item :: rest, best, best_distance =>
    if !item.ItemIsFocusable then GetClosestLoop focus_item rest best best_distance
    else if !item.isVisible then GetClosestLoop focus_item rest best best_distance
    else
      match focus_item with
      | none => .fault .nullDereference
      | some focus =>
        let distance := GetDistance focus.pos item.pos
        if distance < best_distance then
          GetClosestLoop focus_item rest (some item) distance
        else
          GetClosestLoop focus_item rest best best_distance

/-- Source `GetClosest`: the focusable, visible item of `items` closest to `focus_item`. -/
def GetClosest (focus_item : Option QGraphicsItem) (items : List QGraphicsItem) :
    Result (Option QGraphicsItem) :=
  if items.isEmpty then .ok none
  else
    let best := none
    let best_distance := DBL_MAX
    GetClosestLoop focus_item items best best_distance

/-- Source `GetLooseSearchFunction`: the sign test of a direction on `(dx, dy)`. -/
def GetLooseSearchFunction (direction : Direction) : double → double → Bool :=
  let f_loose_above := fun (_dx dy : double) => decide (dy < 0)
  let f_loose_below := fun (_dx dy : double) => decide (dy > 0)
  let f_loose_left := fun (dx _dy : double) => decide (dx < 0)
  let f_loose_right := fun (dx _dy : double) => decide (dx > 0)
  match direction with
  | .above => f_loose_above
  | .below => f_loose_below
  | .left => f_loose_left
  | .right => f_loose_right

/-- Source `GetStrictSearchFunction`: the cone test of a direction on `(dx, dy)`. -/
def GetStrictSearchFunction (direction : Direction) : double → double → Bool :=
  let f_strict_above := fun (dx dy : double) =>
    decide (dy < 0) && decide (double.abs dx < double.abs dy)
  -- as in the source, the test of `below` reads the sign of `dx`
  let f_strict_below := fun (dx dy : double) =>
    decide (dx > 0) && decide (double.abs dx < double.abs dy)
  let f_strict_left := fun (dx dy : double) =>
    decide (dx < 0) && decide (double.abs dy < double.abs dx)
  let f_strict_right := fun (dx dy : double) =>
    decide (dx > 0) && decide (double.abs dy < double.abs dx)
  match direction with
  | .above => f_strict_above
  | .below => f_strict_below
  | .left => f_strict_left
  | .right => f_strict_right

/-- Source `GetNonSelectedNonFocusItems`: the unselected items, without the focus item. -/
def GetNonSelectedNonFocusItems (q : QtKeyboardFriendlyGraphicsView) : List QGraphicsItem :=
  let all_items := q.items
  let nonselected_items := all_items.filter (fun item => !item.isSelected)
  nonselected_items.filter (fun item => !(some item.id == q.focusItem.map (fun f => f.id)))

/-- The loop of `Look`: each round reads the position of the scene's focus item. -/
def LookLoop (q : QtKeyboardFriendlyGraphicsView) (f : double → double → Bool) :
    List QGraphicsItem → Result (List QGraphicsItem)
  | [] => .ok []
  | item :: rest =>
    match q.focusItem with
    | none => .fault .nullDereference
    | some focus_item =>
      let dx := item.pos.x - focus_item.pos.x
      let dy := item.pos.y - focus_item.pos.y
      (LookLoop q f rest).bind (fun v =>
        if f dx dy then
          if !item.isSelected then .ok (item :: v) else .ok v
        else .ok v)

/-- Source `Look`: the unselected non-focus items whose displacement from the focus item
satisfies `f`. -/
def Look (q : QtKeyboardFriendlyGraphicsView) (f : double → double → Bool) :
    Result (List QGraphicsItem) :=
  let nonselected_items := GetNonSelectedNonFocusItems q
  LookLoop q f nonselected_items

/-- Source `GetClosestNonselectedItem(q, focus_item, direction)`: the closest visible,
focusable item of the strict set, or of the loose set when the strict set is empty. -/
def GetClosestNonselectedItem (q : QtKeyboardFriendlyGraphicsView)
    (focus_item : Option QGraphicsItem) (direction : Direction) :
    Result (Option QGraphicsItem) :=
  (Look q (GetStrictSearchFunction direction)).bind (fun v =>
    -- If nothing found, look more loosely
    (if v.isEmpty then Look q (GetLooseSearchFunction direction) else .ok v).bind (fun v =>
      if v.isEmpty then .ok none
      else
        (GetClosest focus_item v).bind (fun closest_item =>
          match closest_item with
          | none => .ok none
          | some item => .ok (some item))))

/-- Source `GetClosestNonselectedItem(q, focus_item, key)`: the overload that maps the arrow keys
to directions. -/
def GetClosestNonselectedItemKey (q : QtKeyboardFriendlyGraphicsView)
    (focus_item : Option QGraphicsItem) (key : Key) : Result (Option QGraphicsItem) :=
  match key with
  | .Key_Up => GetClosestNonselectedItem q focus_item .above
  | .Key_Right => GetClosestNonselectedItem q focus_item .right
  | .Key_Down => GetClosestNonselectedItem q focus_item .below
  | .Key_Left => GetClosestNonselectedItem q focus_item .left
  | _ => .ok none

/-! ## The random generator of the C++ standard library

`std::mt19937` is fixed by the C++ standard (`[rand.eng.mers]`, `[rand.predef]`).
`std::uniform_int_distribution` is implementation-defined; the embedding follows libstdc++,
which for a generator of 32-bit outputs draws by multiplication and shift (`_S_nd`). -/

/-- The state of a `std::mt19937`: the 624 words `x` and the position `p` of the next
word to deliver. -/
structure mt19937 where
  x : List Nat
  p : Nat
deriving DecidableEq, Repr

namespace mt19937

/-- The words `x[i], x[i+1], ...` of a freshly seeded state, from the word before. -/
def seedTable : Nat → Nat → Nat → List Nat
  | 0, _, _ => []
  | n + 1, i, prev =>
    let v := (1812433253 * (prev ^^^ (prev >>> 30)) + i) % 2 ^ 32
    v :: seedTable n (i + 1) v

/-- The constructor `std::mt19937(value)`. -/
def seed (value : Nat) : mt19937 :=
  let x0 := value % 2 ^ 32
  { x := x0 :: seedTable 623 1 x0, p := 624 }

/-- The new word `k` of the state transition. -/
def twistWord (x : List Nat) (k : Nat) : Nat :=
  let y := (x.getD k 0 &&& 0x80000000) ||| (x.getD ((k + 1) % 624) 0 &&& 0x7fffffff)
  x.getD ((k + 397) % 624) 0 ^^^ (y >>> 1) ^^^ (if y &&& 1 = 1 then 0x9908b0df else 0)

/-- The state transition, word by word, in place. -/
def gen_rand_loop : Nat → Nat → List Nat → List Nat
  | 0, _, x => x
  | n + 1, k, x => gen_rand_loop n (k + 1) (x.set k (twistWord x k))

/-- Regenerate all 624 words. -/
def gen_rand (x : List Nat) : List Nat := gen_rand_loop 624 0 x

/-- The tempering of a delivered word. -/
def temper (z : Nat) : Nat :=
  let z := z ^^^ ((z >>> 11) &&& 0xffffffff)
  let z := z ^^^ ((z <<< 7) &&& 0x9d2c5680)
  let z := z ^^^ ((z <<< 15) &&& 0xefc60000)
  z ^^^ (z >>> 18)

/-- The call `urng()`: the next 32-bit output and the advanced state. -/
def next (g : mt19937) : Nat × mt19937 :=
  if g.p ≥ 624 then
    let x := gen_rand g.x
    (temper (x.getD 0 0), { x := x, p := 1 })
  else
    (temper (g.x.getD g.p 0), { x := g.x, p := g.p + 1 })

/-- The member function `discard(z)`: the state after `z` further outputs. -/
def discard : Nat → mt19937 → mt19937
  | 0, g => g
  | z + 1, g => discard z g.next.2

end mt19937

/-- The loop `while (low < threshold)` of `_S_nd`: draw again while the low word of the
product is below `threshold`.  The C++ loop is unbounded; `fuel` bounds the number of
further draws, `none` = not finished within `fuel` further draws. -/
def S_nd_loop (range threshold : Nat) : Nat → Nat → mt19937 → Option (Nat × mt19937)
  | 0, product, g =>
    if product % 2 ^ 32 < threshold then none else some (product, g)
  | fuel + 1, product, g =>
    if product % 2 ^ 32 < threshold then
      match g.next with
      | (ret, g) => S_nd_loop range threshold fuel (ret * range) g
    else some (product, g)

/-- The function `_S_nd` of libstdc++ for a 32-bit `range`: a number below `range`, the
high word of the 64-bit product of an output of the generator with `range`. -/
def S_nd (fuel : Nat) (g : mt19937) (range : Nat) : Option (Nat × mt19937) :=
  match g.next with
  | (ret, g) =>
    let product := ret * range
    let low := product % 2 ^ 32
    if low < range then
      let threshold := (2 ^ 32 - range) % range
      match S_nd_loop range threshold fuel product g with
      | none => none
      | some (product, g) => some (product / 2 ^ 32, g)
    else some (product / 2 ^ 32, g)

/-- The call `std::uniform_int_distribution<int>(a, b)(urng)` for `a ≤ b` (libstdc++).
The bounds are of type `int`, so `b - a` is at most the range `0xffffffff` of the
generator and the branch that combines several outputs is never taken. -/
def uniform_int_distribution (fuel : Nat) (a b : Nat) (urng : mt19937) :
    Option (Nat × mt19937) :=
  let urngrange := 0xffffffff
  let urange := b - a
  if urngrange > urange then
    -- downscaling
    let uerange := urange + 1
    match S_nd fuel urng uerange with
    | none => none
    | some (ret, urng) => some (ret + a, urng)
  else
    match urng.next with
    | (ret, urng) => some (ret + a, urng)

/-! ## The key handlers -/

/-- Source `ReallyLoseFocus`: take focus and selection from the focus item. -/
def ReallyLoseFocus (q : QtKeyboardFriendlyGraphicsView) : QtKeyboardFriendlyGraphicsView :=
  match q.focusItem with
  | none => q
  | some item =>
    let q := q.setEnabled item.id false
    let q := q.setSelected item.id false
    let q := q.clearFocus item.id
    q.setEnabled item.id true

/-- Source `SetRandomFocus`.  The argument `rng_engine` is the function's
`static std::mt19937`, constructed from seed 0 at the first call and kept between calls;
`none` = the distribution ran out of fuel. -/
def SetRandomFocus (fuel : Nat) (rng_engine : mt19937) (q : QtKeyboardFriendlyGraphicsView) :
    Option (mt19937 × QtKeyboardFriendlyGraphicsView) :=
  let q := ReallyLoseFocus q
  let q := q.selectedItems.foldl (fun s item => s.setSelected item.id false) q
  -- Let a random item receive focus
  let all_items := q.items
  let items := all_items.filter
    (fun item => item.ItemIsFocusable && item.ItemIsSelectable && item.isVisible)
  if !items.isEmpty then
    match uniform_int_distribution fuel 0 (items.length - 1) rng_engine with
    | none => none
    | some (i, rng_engine) =>
      match items[i]? with
      | none => none
      | some new_focus_item =>
        let q := q.setSelected new_focus_item.id true
        let q := q.setFocus new_focus_item.id
        some (rng_engine, q)
  else some (rng_engine, q)

/-- Source `KeyPressEventNoModifiersArrowKey`: move selection and focus to the closest
unselected item in the direction of the key. -/
def KeyPressEventNoModifiersArrowKey (q : QtKeyboardFriendlyGraphicsView)
    (event : QKeyEvent) : Result QtKeyboardFriendlyGraphicsView :=
  let current_focus_item := q.focusItem
  match current_focus_item with
  | none => .ok q
  | some focus =>
    (GetClosestNonselectedItemKey q current_focus_item event.key).bind (fun nsi =>
      -- Unselect currently selected
      let csi := q.selectedItems
      let q := csi.foldl (fun s item => s.setSelected item.id false) q
      -- Select newly selected
      let q := DoSelect q nsi
      -- Transfer focus
      let q := q.clearFocus focus.id
      .ok (DoFocus q nsi))

/-- Source `KeyPressEventShift`: add the closest unselected item in the direction of the key to
the selection and move focus to it. -/
def KeyPressEventShift (q : QtKeyboardFriendlyGraphicsView) (event : QKeyEvent) :
    Result QtKeyboardFriendlyGraphicsView :=
  let keys_accepted := [Key.Key_Up, Key.Key_Right, Key.Key_Down, Key.Key_Left]
  if keys_accepted.count event.key = 0 then .ok q
  else
    let current_focus_item := q.focusItem
    match current_focus_item with
    | none => .ok q
    | some focus =>
      (GetClosestNonselectedItemKey q current_focus_item event.key).bind (fun nasi =>
        -- Add selectedness
        let q := match nasi with
          | none => q
          | some item => q.setSelected item.id true
        -- Transfer focus
        let q := q.clearFocus focus.id
        let q := match nasi with
          | none => q
          | some item => q.setFocus item.id
        .ok q)

/-! ## Well-formed scenes and concrete scenes -/

/-- The items of a scene are distinct objects: no two of them have the same address. -/
def QGraphicsScene.WellFormed (s : QGraphicsScene) : Prop :=
  (s.items.map (fun item => item.id)).Nodup

instance (s : QGraphicsScene) : Decidable s.WellFormed := by
  unfold QGraphicsScene.WellFormed
  exact inferInstance

/-- The words of a generator state are 32-bit words, as they are in every state that the
constructor and `urng()` produce. -/
def mt19937.WellFormed (g : mt19937) : Prop := ∀ w ∈ g.x, w < 2 ^ 32

instance (g : mt19937) : Decidable g.WellFormed := by
  unfold mt19937.WellFormed
  exact inferInstance

/-- The square of the Euclidean distance of two points with finite coordinates, exact, as a
multiple of `2 ^ (-2148)`: the distance of the spec, to compare with `GetDistance`. -/
def EuclideanDistanceSq (a b : QPointF) : Int :=
  (a.x.toUnits - b.x.toUnits) ^ 2 + (a.y.toUnits - b.y.toUnits) ^ 2

/-- The next output of the generator is one that `_S_nd` rejects for `range`: the low word
of its product with `range` is below the threshold `(2 ^ 32 - range) % range`. -/
def S_nd_rejects (g : mt19937) (range : Nat) : Prop :=
  g.next.1 * range % 2 ^ 32 < (2 ^ 32 - range) % range

instance (g : mt19937) (range : Nat) : Decidable (S_nd_rejects g range) := by
  unfold S_nd_rejects
  exact inferInstance

/-- A point with integer coordinates of magnitude at most `2 ^ 20`. -/
def QPointF.IsSmallInteger (p : QPointF) : Prop :=
  ∃ x y : Int, x.natAbs ≤ 2 ^ 20 ∧ y.natAbs ≤ 2 ^ 20 ∧ p = ⟨double.ofInt x, double.ofInt y⟩

/-- An item at the point `pos` with every flag set: visible, enabled, not selected. -/
def itemAt (id : Nat) (pos : QPointF) : QGraphicsItem :=
  { id := id, pos := pos, ItemIsMovable := true, ItemIsSelectable := true,
    ItemIsFocusable := true, isVisible := true, isEnabled := true, isSelected := false }

/-- An item at the integer coordinates `(x, y)` with every flag set: visible, enabled, not
selected. -/
def plainItem (id : Nat) (x y : Int) : QGraphicsItem :=
  { id := id, pos := ⟨double.ofInt x, double.ofInt y⟩, ItemIsMovable := true, ItemIsSelectable := true,
    ItemIsFocusable := true, isVisible := true, isEnabled := true, isSelected := false }

/-- A focus item at the origin with two unselected items above it, at displacements
`(5, -1)` and `(1, -5)`. -/
def sceneTwoAbove : QGraphicsScene :=
  { items := [plainItem 0 0 0, plainItem 1 5 (-1), plainItem 2 1 (-5)], focus := some 0 }

/-- A focus item at the origin, an invisible item straight above it at `(0, -5)` and a
visible item at `(5, -1)`. -/
def sceneHiddenAbove : QGraphicsScene :=
  { items := [plainItem 0 0 0, { plainItem 1 0 (-5) with isVisible := false },
      plainItem 2 5 (-1)],
    focus := some 0 }

/-- A scene without a focus item, holding one unselected item. -/
def sceneNoFocus : QGraphicsScene :=
  { items := [plainItem 1 0 (-5)], focus := none }

/-- A selected focus item at the origin and a second selected item above it: no item
is left to navigate to. -/
def sceneAllSelected : QGraphicsScene :=
  { items := [{ plainItem 0 0 0 with isSelected := true },
      { plainItem 1 0 (-5) with isSelected := true }],
    focus := some 0 }

/-- An unselected focus item at the origin and one unselected item straight above it. -/
def sceneFocusUnselected : QGraphicsScene :=
  { items := [plainItem 0 0 0, plainItem 1 0 (-5)], focus := some 0 }

/-- A selected focus item at the origin and, straight above it, an unselected item that
is not selectable. -/
def sceneUnselectableAbove : QGraphicsScene :=
  { items := [{ plainItem 0 0 0 with isSelected := true },
      { plainItem 1 0 (-5) with ItemIsSelectable := false }],
    focus := some 0 }

/-- A selected focus item at the origin and one unselected item straight above it. -/
def sceneFocusSelected : QGraphicsScene :=
  { items := [{ plainItem 0 0 0 with isSelected := true }, plainItem 1 0 (-5)],
    focus := some 0 }

/-- Seven items in a row, all visible, focusable, selectable and enabled; no focus item,
no selected item. -/
def sceneSeven : QGraphicsScene :=
  { items := [plainItem 0 0 0, plainItem 1 10 0, plainItem 2 20 0, plainItem 3 30 0,
      plainItem 4 40 0, plainItem 5 50 0, plainItem 6 60 0],
    focus := none }

/-- A column of three items: a selected focus item at the origin, above it a focusable item
that is not selectable, and above that a further item. -/
def sceneColumn : QGraphicsScene :=
  { items := [{ plainItem 0 0 0 with isSelected := true },
      { plainItem 1 0 (-5) with ItemIsSelectable := false },
      plainItem 2 0 (-10)],
    focus := some 0 }

/-- The scene `sceneColumn` after a plain Up key: focus is on the middle item, which is
not selected. -/
def sceneColumnAfterUp : QGraphicsScene :=
  { items := [plainItem 0 0 0, { plainItem 1 0 (-5) with ItemIsSelectable := false },
      plainItem 2 0 (-10)],
    focus := some 1 }


/-- A focus item at the origin and two items to its right: the first at `(94906265, 1)`,
the second at `(94906265, 0)`, which is nearer. -/
def sceneRoundedTie : QGraphicsScene :=
  { items := [plainItem 0 0 0, plainItem 1 94906265 1, plainItem 2 94906265 0],
    focus := some 0 }

/-- A focus item at the origin and one item far to its right, at `(2 ^ 600, 0)`. -/
def sceneFarRight : QGraphicsScene :=
  { items := [plainItem 0 0 0, plainItem 1 (2 ^ 600) 0], focus := some 0 }

set_option exponentiation.threshold 5000

namespace double

theorem bitLengthLoop_le (fuel : Nat) : ∀ (n k : Nat), n ≤ fuel → n < 2 ^ k →
    bitLengthLoop fuel n ≤ k := by
  induction fuel with
  | zero => intro n k _ _; simp [bitLengthLoop]
  | succ f ih =>
    intro n k hn hk
    unfold bitLengthLoop
    by_cases h0 : n = 0
    · simp [h0]
    · simp only [h0, if_false]
      cases k with
      | zero => simp at hk; omega
      | succ k =>
        have := ih (n / 2) k (by omega) (by rw [pow_succ] at hk; omega)
        omega

theorem bitLength_le (n k : Nat) (h : n < 2 ^ k) : bitLength n ≤ k :=
  bitLengthLoop_le n n k (le_refl n) h

theorem lt_pow_bitLengthLoop (fuel : Nat) : ∀ n : Nat, n ≤ fuel →
    n < 2 ^ bitLengthLoop fuel n := by
  induction fuel with
  | zero => intro n hn; simp [bitLengthLoop]; omega
  | succ f ih =>
    intro n hn
    unfold bitLengthLoop
    by_cases h0 : n = 0
    · simp [h0]
    · simp only [h0, if_false]
      have := ih (n / 2) (by omega)
      rw [pow_succ]
      omega

theorem lt_pow_bitLength (n : Nat) : n < 2 ^ bitLength n :=
  lt_pow_bitLengthLoop n n (le_refl n)

theorem pow_bitLengthLoop_le (fuel : Nat) : ∀ n : Nat, n ≤ fuel → n ≠ 0 →
    2 ^ (bitLengthLoop fuel n - 1) ≤ n := by
  induction fuel with
  | zero => intro n hn h0; omega
  | succ f ih =>
    intro n hn h0
    unfold bitLengthLoop
    simp only [h0, if_false, Nat.add_sub_cancel]
    by_cases h1 : n / 2 = 0
    · have : bitLengthLoop f (n / 2) = 0 := by
        rw [h1]; cases f <;> simp [bitLengthLoop]
      rw [this]; simp; omega
    · have := ih (n / 2) (by omega) h1
      have hpos : 0 < bitLengthLoop f (n / 2) := by
        cases f with
        | zero => omega
        | succ f' => unfold bitLengthLoop; simp [h1]
      have e : bitLengthLoop f (n / 2) = (bitLengthLoop f (n / 2) - 1) + 1 := by omega
      rw [e, pow_succ]
      omega

theorem pow_bitLength_le (n : Nat) (h : n ≠ 0) : 2 ^ (bitLength n - 1) ≤ n :=
  pow_bitLengthLoop_le n n (le_refl n) h


theorem lt_def (a b : double) : a < b ↔ lt a b = true := Iff.rfl

theorem round_cases (s : Bool) (n k : Nat) :
    round s n k = inf s ∨ ∃ m, round s n k = finite s m := by
  unfold round ofMagnitude
  simp only
  split
  · exact Or.inl rfl
  · exact Or.inr ⟨_, rfl⟩

theorem round_neg (s : Bool) (n k : Nat) : round (!s) n k = neg (round s n k) := by
  unfold round ofMagnitude
  simp only
  split <;> rfl

theorem not_isNaN_of_lt_left (a b : double) (h : a < b) : a.isNaN = false := by
  cases a <;> cases b <;> simp_all [lt_def, lt, isNaN]

theorem not_isNaN_of_lt_right (a b : double) (h : a < b) : b.isNaN = false := by
  cases a <;> cases b <;> simp_all [lt_def, lt, isNaN]

theorem lt_irrefl (a : double) : ¬ a < a := by
  cases a with
  | finite s n => cases s <;> simp [lt_def, lt]
  | inf s => cases s <;> simp [lt_def, lt]
  | nan => simp [lt_def, lt]

theorem lt_trans (a b c : double) (hab : a < b) (hbc : b < c) : a < c := by
  cases a with
  | nan => simp [lt_def, lt] at hab
  | inf sa =>
    cases b with
    | nan => simp [lt_def, lt] at hab
    | inf sb =>
      cases c with
      | nan => simp [lt_def, lt] at hbc
      | inf sc => cases sa <;> cases sb <;> cases sc <;> simp_all [lt_def, lt]
      | finite sc nc => cases sa <;> cases sb <;> simp_all [lt_def, lt]
    | finite sb nb =>
      cases c with
      | nan => simp [lt_def, lt] at hbc
      | inf sc => cases sa <;> cases sc <;> simp_all [lt_def, lt]
      | finite sc nc => cases sa <;> simp_all [lt_def, lt]
  | finite sa na =>
    cases b with
    | nan => simp [lt_def, lt] at hab
    | inf sb =>
      cases c with
      | nan => simp [lt_def, lt] at hbc
      | inf sc => cases sb <;> cases sc <;> simp_all [lt_def, lt]
      | finite sc nc => cases sb <;> simp_all [lt_def, lt]
    | finite sb nb =>
      cases c with
      | nan => simp [lt_def, lt] at hbc
      | inf sc => cases sc <;> simp_all [lt_def, lt]
      | finite sc nc =>
        cases sa <;> cases sb <;> cases sc <;> simp_all [lt_def, lt] <;> omega

/-- Without NaN the order is total: if `c` is not below `b`, whatever is below `b` is
below `c`. -/
theorem lt_of_lt_of_not_lt (a b c : double) (hab : a < b) (hcb : ¬ c < b)
    (hc : c.isNaN = false) : a < c := by
  cases a with
  | nan => simp [lt_def, lt] at hab
  | inf sa =>
    cases b with
    | nan => simp [lt_def, lt] at hab
    | inf sb =>
      cases c with
      | nan => simp [isNaN] at hc
      | inf sc => cases sa <;> cases sb <;> cases sc <;> simp_all [lt_def, lt]
      | finite sc nc => cases sa <;> cases sb <;> simp_all [lt_def, lt]
    | finite sb nb =>
      cases c with
      | nan => simp [isNaN] at hc
      | inf sc => cases sa <;> cases sc <;> simp_all [lt_def, lt]
      | finite sc nc => cases sa <;> simp_all [lt_def, lt]
  | finite sa na =>
    cases b with
    | nan => simp [lt_def, lt] at hab
    | inf sb =>
      cases c with
      | nan => simp [isNaN] at hc
      | inf sc => cases sb <;> cases sc <;> simp_all [lt_def, lt]
      | finite sc nc => cases sb <;> simp_all [lt_def, lt]
    | finite sb nb =>
      cases c with
      | nan => simp [isNaN] at hc
      | inf sc => cases sc <;> simp_all [lt_def, lt]
      | finite sc nc =>
        cases sa <;> cases sb <;> cases sc <;> simp_all [lt_def, lt] <;> omega

/-- The comparison `<` of two finite numbers is the comparison of their exact values. -/
theorem lt_finite_iff (sa sb : Bool) (na nb : Nat) :
    finite sa na < finite sb nb ↔ (finite sa na).toUnits < (finite sb nb).toUnits := by
  cases sa <;> cases sb <;> simp [lt_def, lt, toUnits] <;> omega

theorem neg_neg (a : double) : neg (neg a) = a := by
  cases a <;> simp [neg]

theorem add_comm (a b : double) : add a b = add b a := by
  cases a with
  | nan => cases b <;> rfl
  | inf sa =>
    cases b with
    | nan => rfl
    | inf sb => cases sa <;> cases sb <;> rfl
    | finite sb nb => rfl
  | finite sa na =>
    cases b with
    | nan => rfl
    | inf sb => rfl
    | finite sb nb =>
      unfold add
      by_cases hs : sa = sb
      · subst hs
        simp only [if_true, Nat.add_comm]
      · have hs' : ¬ sb = sa := fun e => hs e.symm
        simp only [hs, hs', if_false]
        by_cases h1 : nb < na
        · have h2 : ¬ na < nb := by omega
          simp only [h1, h2, if_true, if_false]
        · by_cases h2 : na < nb
          · simp only [h1, h2, if_true, if_false]
          · simp only [h1, h2, if_false]

theorem add_neg_neg (a b : double) (s : Bool) (n : Nat) (h : add a b = finite s n)
    (hn : n ≠ 0) : add (neg a) (neg b) = finite (!s) n := by
  cases a with
  | nan => cases b <;> simp [add] at h
  | inf sa => cases b <;> simp [add] at h; split at h <;> simp at h
  | finite sa na =>
    cases b with
    | nan => simp [add] at h
    | inf sb => simp [add] at h
    | finite sb nb =>
      unfold add at h
      unfold neg add
      by_cases hs : sa = sb
      · subst hs
        simp only [if_true] at h ⊢
        rw [round_neg, h]; rfl
      · have hs' : ¬ (!sa) = (!sb) := by cases sa <;> cases sb <;> simp_all
        simp only [hs, if_false] at h
        simp only [hs', if_false]
        by_cases h1 : nb < na
        · simp only [h1, if_true] at h ⊢
          rw [round_neg, h]; rfl
        · by_cases h2 : na < nb
          · simp only [h1, h2, if_true, if_false] at h ⊢
            rw [round_neg, h]; rfl
          · simp only [h1, h2, if_false, finite.injEq] at h
            exact absurd h.2.symm hn

/-- Exchanging the operands of a subtraction with a finite result other than zero changes the
sign of the result. -/
theorem sub_swap (a b : double) (s : Bool) (n : Nat) (h : a - b = finite s n) (hn : n ≠ 0) :
    b - a = finite (!s) n := by
  have h1 : add a (neg b) = finite s n := h
  have h2 := add_neg_neg a (neg b) s n h1 hn
  rw [neg_neg, add_comm] at h2
  exact h2


theorem roundNearestEven_of_mod_eq_zero (n shift : Nat) (h : n % 2 ^ shift = 0) :
    roundNearestEven n shift = n / 2 ^ shift := by
  unfold roundNearestEven
  have hpos : 0 < 2 ^ (shift - 1) := pow_pos (by norm_num) _
  have h1 : ¬ 2 ^ (shift - 1) < n % 2 ^ shift := by omega
  have h2 : ¬ n % 2 ^ shift = 2 ^ (shift - 1) := by omega
  simp only [h1, h2, decide_False, Bool.false_and, Bool.or_false, Bool.and_false,
    Bool.false_eq_true, if_false]

/-- A magnitude of `m * 2 ^ j` units with `m` below `2 ^ 53` is a `double`: rounding does
not change it. -/
theorem round_exact (s : Bool) (m j k : Nat) (hm : m < 2 ^ 53) (hk : k ≤ j)
    (hj : j + 53 ≤ 2098 + k) :
    round s (m * 2 ^ j) k = finite s (m * 2 ^ (j - k)) := by
  have hlt : m * 2 ^ j < 2 ^ (53 + j) := by
    rw [pow_add]
    exact Nat.mul_lt_mul_of_pos_right hm (pow_pos (by norm_num) _)
  have hbl := bitLength_le _ _ hlt
  unfold round
  simp only
  generalize hsh : max (bitLength (m * 2 ^ j) - 53) k = sh
  have hsh1 : sh ≤ j := by omega
  have hsh2 : k ≤ sh := by omega
  have e : m * 2 ^ j = m * 2 ^ (j - sh) * 2 ^ sh := by
    rw [Nat.mul_assoc, ← pow_add]
    congr 2
    omega
  have hmod : m * 2 ^ j % 2 ^ sh = 0 := by
    rw [e]; exact Nat.mul_mod_left _ _
  rw [roundNearestEven_of_mod_eq_zero _ _ hmod]
  have hdiv : m * 2 ^ j / 2 ^ sh = m * 2 ^ (j - sh) := by
    rw [e]; exact Nat.mul_div_cancel _ (pow_pos (by norm_num) _)
  rw [hdiv]
  have e2 : m * 2 ^ (j - sh) * 2 ^ (sh - k) = m * 2 ^ (j - k) := by
    rw [Nat.mul_assoc, ← pow_add]
    congr 2
    omega
  rw [e2]
  unfold ofMagnitude
  have hno : ¬ 2 ^ 2098 ≤ m * 2 ^ (j - k) := by
    have h1 : m * 2 ^ (j - k) < 2 ^ (53 + (j - k)) := by
      rw [pow_add]
      exact Nat.mul_lt_mul_of_pos_right hm (pow_pos (by norm_num) _)
    have h2 : 2 ^ (53 + (j - k)) ≤ 2 ^ 2098 :=
      Nat.pow_le_pow_right (by norm_num) (by omega)
    omega
  simp only [hno, if_false]

/-- An integer of magnitude below `2 ^ 53` is a `double`. -/
theorem ofInt_eq (z : Int) (hz : z.natAbs < 2 ^ 53) :
    ofInt z = finite (decide (z < 0)) (z.natAbs * 2 ^ 1074) := by
  unfold ofInt
  exact round_exact _ _ 1074 0 hz (by omega) (by omega)

/-- The sum of two integers is exact as long as the integers and their sum have a magnitude
below `2 ^ 53`. -/
theorem add_ofInt (x d : Int) (hx : x.natAbs < 2 ^ 53) (hd : d.natAbs < 2 ^ 53)
    (hs : (x + d).natAbs < 2 ^ 53) : add (ofInt x) (ofInt d) = ofInt (x + d) := by
  rw [ofInt_eq x hx, ofInt_eq d hd, ofInt_eq (x + d) hs]
  have hK : 0 < 2 ^ 1074 := pow_pos (by norm_num) _
  have hr : ∀ (s : Bool) (m : Nat), m < 2 ^ 53 →
      round s (m * 2 ^ 1074) 0 = finite s (m * 2 ^ 1074) := by
    intro s m hm
    exact round_exact s m 1074 0 hm (by omega) (by omega)
  unfold add
  by_cases hsx : x < 0 <;> by_cases hsd : d < 0
  · have e : (x + d).natAbs = x.natAbs + d.natAbs := by omega
    have hneg : x + d < 0 := by omega
    simp only [hsx, hsd, hneg, decide_True, if_true]
    rw [← Nat.add_mul, hr _ _ (by omega), e]
  · simp only [hsx, hsd, decide_True, decide_False, Bool.true_eq_false, if_false]
    by_cases h1 : d.natAbs < x.natAbs
    · have h1' : d.natAbs * 2 ^ 1074 < x.natAbs * 2 ^ 1074 :=
        Nat.mul_lt_mul_of_pos_right h1 hK
      have e : (x + d).natAbs = x.natAbs - d.natAbs := by omega
      have hneg : x + d < 0 := by omega
      simp only [h1', if_true, hneg, decide_True]
      rw [← Nat.sub_mul, hr _ _ (by omega), e]
    · have h1' : ¬ d.natAbs * 2 ^ 1074 < x.natAbs * 2 ^ 1074 := by
        intro h; exact h1 (Nat.lt_of_mul_lt_mul_right h)
      simp only [h1', if_false]
      by_cases h2 : x.natAbs < d.natAbs
      · have h2' : x.natAbs * 2 ^ 1074 < d.natAbs * 2 ^ 1074 :=
          Nat.mul_lt_mul_of_pos_right h2 hK
        have e : (x + d).natAbs = d.natAbs - x.natAbs := by omega
        have hneg : ¬ x + d < 0 := by omega
        simp only [h2', if_true, hneg, decide_False]
        rw [← Nat.sub_mul, hr _ _ (by omega), e]
      · have h2' : ¬ x.natAbs * 2 ^ 1074 < d.natAbs * 2 ^ 1074 := by
          intro h; exact h2 (Nat.lt_of_mul_lt_mul_right h)
        have e : (x + d).natAbs = 0 := by omega
        have hneg : ¬ x + d < 0 := by omega
        simp only [h2', if_false, hneg, decide_False, e, Nat.zero_mul]
  · simp only [hsx, hsd, decide_True, decide_False, Bool.false_eq_true, if_false]
    by_cases h1 : d.natAbs < x.natAbs
    · have h1' : d.natAbs * 2 ^ 1074 < x.natAbs * 2 ^ 1074 :=
        Nat.mul_lt_mul_of_pos_right h1 hK
      have e : (x + d).natAbs = x.natAbs - d.natAbs := by omega
      have hneg : ¬ x + d < 0 := by omega
      simp only [h1', if_true, hneg, decide_False]
      rw [← Nat.sub_mul, hr _ _ (by omega), e]
    · have h1' : ¬ d.natAbs * 2 ^ 1074 < x.natAbs * 2 ^ 1074 := by
        intro h; exact h1 (Nat.lt_of_mul_lt_mul_right h)
      simp only [h1', if_false]
      by_cases h2 : x.natAbs < d.natAbs
      · have h2' : x.natAbs * 2 ^ 1074 < d.natAbs * 2 ^ 1074 :=
          Nat.mul_lt_mul_of_pos_right h2 hK
        have e : (x + d).natAbs = d.natAbs - x.natAbs := by omega
        have hneg : x + d < 0 := by omega
        simp only [h2', if_true, hneg, decide_True]
        rw [← Nat.sub_mul, hr _ _ (by omega), e]
      · have h2' : ¬ x.natAbs * 2 ^ 1074 < d.natAbs * 2 ^ 1074 := by
          intro h; exact h2 (Nat.lt_of_mul_lt_mul_right h)
        have e : (x + d).natAbs = 0 := by omega
        have hneg : ¬ x + d < 0 := by omega
        simp only [h2', if_false, hneg, decide_False, e, Nat.zero_mul]
  · have e : (x + d).natAbs = x.natAbs + d.natAbs := by omega
    have hneg : ¬ x + d < 0 := by omega
    simp only [hsx, hsd, hneg, decide_False, if_true]
    rw [← Nat.add_mul, hr _ _ (by omega), e]


theorem sqrtLoop_spec (n : Nat) : ∀ (k r : Nat), r * r ≤ n → n < (r + 2 ^ k) * (r + 2 ^ k) →
    sqrtLoop n k r * sqrtLoop n k r ≤ n ∧ n < (sqrtLoop n k r + 1) * (sqrtLoop n k r + 1) := by
  intro k
  induction k with
  | zero =>
    intro r h1 h2
    simpa [sqrtLoop] using And.intro h1 h2
  | succ k ih =>
    intro r h1 h2
    unfold sqrtLoop
    split
    · rename_i hle
      apply ih _ hle
      have e : r + 2 ^ k + 2 ^ k = r + 2 ^ (k + 1) := by rw [pow_succ]; omega
      rw [e]; exact h2
    · rename_i hle
      exact ih r h1 (by omega)

/-- The integer square root: `natSqrt n` is the greatest `r` with `r * r ≤ n`. -/
theorem natSqrt_spec (n : Nat) :
    natSqrt n * natSqrt n ≤ n ∧ n < (natSqrt n + 1) * (natSqrt n + 1) := by
  unfold natSqrt
  apply sqrtLoop_spec n _ 0 (by omega)
  have h1 := lt_pow_bitLength n
  have h2 : 2 ^ bitLength n ≤ 2 ^ (bitLength n / 2 + 1) * 2 ^ (bitLength n / 2 + 1) := by
    rw [← pow_add]
    exact Nat.pow_le_pow_right (by norm_num) (by omega)
  simp only [Nat.zero_add]
  omega

theorem natSqrt_eq_sqrt (n : Nat) : natSqrt n = Nat.sqrt n :=
  Nat.eq_sqrt.mpr (natSqrt_spec n)


theorem ofInt_zero : ofInt 0 = finite false 0 := by decide!

theorem add_finite_neg_zero (s : Bool) (n : Nat) (h : s = false → n ≠ 0) :
    add (finite s n) (finite true 0) = round s n 0 := by
  unfold add
  cases s with
  | true => simp only [if_true, Nat.add_zero]
  | false =>
    have hn : 0 < n := Nat.pos_of_ne_zero (h rfl)
    have h2 : (false = true) = False := by simp
    simp only [h2, if_false, hn, if_true, Nat.sub_zero]

/-- The difference of two integers is exact as long as the integers and their difference have
a magnitude below `2 ^ 53`. -/
theorem sub_ofInt (a b : Int) (ha : a.natAbs < 2 ^ 53) (hb : b.natAbs < 2 ^ 53)
    (hs : (a - b).natAbs < 2 ^ 53) : sub (ofInt a) (ofInt b) = ofInt (a - b) := by
  by_cases hb0 : b = 0
  · subst hb0
    rw [Int.sub_zero]
    by_cases ha0 : a = 0
    · subst ha0
      rw [ofInt_zero]
      rfl
    · have hr : round (decide (a < 0)) (a.natAbs * 2 ^ 1074) 0 = ofInt a := rfl
      rw [ofInt_zero]
      show add (ofInt a) (finite true 0) = ofInt a
      rw [ofInt_eq a ha, add_finite_neg_zero, round_exact _ _ 1074 0 ha (by omega) (by omega)]
      intro _
      have h1 : 0 < a.natAbs := Int.natAbs_pos.mpr ha0
      positivity
  · have hn : neg (ofInt b) = ofInt (-b) := by
      rw [ofInt_eq b hb, ofInt_eq (-b) (by simpa using hb)]
      simp only [neg, Int.natAbs_neg]
      congr 1
      by_cases h : b < 0
      · have h2 : ¬ -b < 0 := by omega
        simp [h, h2]
      · have h2 : -b < 0 := by omega
        simp [h, h2]
    unfold sub
    rw [hn, add_ofInt a (-b) ha (by simpa using hb) (by simpa [sub_eq_add_neg] using hs)]
    rfl

/-- The square of an integer is exact as long as it is below `2 ^ 53`. -/
theorem mul_self_ofInt (x : Int) (hx : x.natAbs * x.natAbs < 2 ^ 53) :
    mul (ofInt x) (ofInt x) = ofInt (x * x) := by
  have hx1 : x.natAbs < 2 ^ 53 := by
    rcases Nat.eq_zero_or_pos x.natAbs with h | h
    · rw [h]; positivity
    · exact Nat.lt_of_le_of_lt (Nat.le_mul_of_pos_left _ h) hx
  have hxx : (x * x).natAbs = x.natAbs * x.natAbs := Int.natAbs_mul x x
  rw [ofInt_eq x hx1, ofInt_eq (x * x) (by rw [hxx]; exact hx)]
  show round (decide (x < 0) != decide (x < 0))
    (x.natAbs * 2 ^ 1074 * (x.natAbs * 2 ^ 1074)) 1074 = _
  have e : x.natAbs * 2 ^ 1074 * (x.natAbs * 2 ^ 1074) = x.natAbs * x.natAbs * 2 ^ 2148 := by
    have : (2 : Nat) ^ 2148 = 2 ^ 1074 * 2 ^ 1074 := by rw [← pow_add]
    rw [this]
    ring
  rw [e, round_exact _ _ 2148 1074 hx (by omega) (by omega)]
  have hnn : ¬ x * x < 0 := by
    have := mul_self_nonneg x
    omega
  simp only [bne_self_eq_false, hnn, decide_False, hxx]


theorem roundNearestEven_bounds (v sh : Nat) (hsh : 1 ≤ sh) :
    v ≤ roundNearestEven v sh * 2 ^ sh + 2 ^ (sh - 1) ∧
      roundNearestEven v sh * 2 ^ sh ≤ v + 2 ^ (sh - 1) := by
  have hdm := Nat.div_add_mod v (2 ^ sh)
  have hmod := Nat.mod_lt v (pow_pos (by norm_num : 0 < 2) sh)
  have e2 : 2 ^ sh = 2 * 2 ^ (sh - 1) := by
    have : sh = (sh - 1) + 1 := by omega
    conv_lhs => rw [this, pow_succ]
    ring
  unfold roundNearestEven
  simp only
  generalize hq : v / 2 ^ sh = q at hdm ⊢
  generalize hr : v % 2 ^ sh = r at hdm hmod ⊢
  have hX : 2 ^ sh * q = q * 2 ^ sh := Nat.mul_comm _ _
  split
  · rename_i hup
    simp only [Bool.and_eq_true, Bool.or_eq_true, decide_eq_true_eq] at hup
    have hge : 2 ^ (sh - 1) ≤ r := by
      rcases hup.2 with h | h
      · omega
      · omega
    have e3 : (q + 1) * 2 ^ sh = q * 2 ^ sh + 2 ^ sh := by ring
    rw [e3]
    generalize q * 2 ^ sh = X at hX e3 ⊢
    generalize 2 ^ (sh - 1) = P at e2 hge ⊢
    omega
  · rename_i hup
    simp only [Bool.and_eq_true, Bool.or_eq_true, decide_eq_true_eq, not_and, not_or] at hup
    have hle : r ≤ 2 ^ (sh - 1) := by
      have := (hup (by omega)).1
      omega
    generalize q * 2 ^ sh = X at hX ⊢
    generalize 2 ^ (sh - 1) = P at e2 hle ⊢
    omega

/-- The bounds on the integer square root of `n * 2 ^ 2148` for `1 ≤ n < 2 ^ 44`. -/
theorem natSqrt_scaled_bounds (n : Nat) (h1 : 1 ≤ n) (h2 : n < 2 ^ 44) :
    2 ^ 1074 ≤ natSqrt (n * 2 ^ 1074 * 2 ^ 1074) ∧
      natSqrt (n * 2 ^ 1074 * 2 ^ 1074) < 2 ^ 1096 := by
  obtain ⟨hlo, hhi⟩ := natSqrt_spec (n * 2 ^ 1074 * 2 ^ 1074)
  generalize natSqrt (n * 2 ^ 1074 * 2 ^ 1074) = r at hlo hhi
  constructor
  · by_contra hc
    have hc' : r + 1 ≤ 2 ^ 1074 := by omega
    have := Nat.mul_le_mul hc' hc'
    have h3 : 1 * 2 ^ 1074 * 2 ^ 1074 ≤ n * 2 ^ 1074 * 2 ^ 1074 :=
      Nat.mul_le_mul_right _ (Nat.mul_le_mul_right _ h1)
    rw [Nat.one_mul] at h3
    omega
  · by_contra hc
    have hc' : 2 ^ 1096 ≤ r := by omega
    have := Nat.mul_le_mul hc' hc'
    have h3 : n * 2 ^ 1074 * 2 ^ 1074 < 2 ^ 44 * 2 ^ 1074 * 2 ^ 1074 :=
      Nat.mul_lt_mul_of_pos_right (Nat.mul_lt_mul_of_pos_right h2 (by positivity))
        (by positivity)
    have e : (2 : Nat) ^ 44 * 2 ^ 1074 * 2 ^ 1074 = 2 ^ 1096 * 2 ^ 1096 := by
      rw [← pow_add, ← pow_add, ← pow_add]
    omega

/-- The integer square roots of `n * 2 ^ 2148` and `m * 2 ^ 2148` are far apart when
`n < m < 2 ^ 44`. -/
theorem natSqrt_scaled_gap (n m : Nat) (h1 : 1 ≤ n) (hnm : n < m) (h2 : m < 2 ^ 44) :
    natSqrt (n * 2 ^ 1074 * 2 ^ 1074) + 2 ^ 1050 ≤ natSqrt (m * 2 ^ 1074 * 2 ^ 1074) := by
  obtain ⟨hlo, -⟩ := natSqrt_spec (n * 2 ^ 1074 * 2 ^ 1074)
  obtain ⟨-, hhi⟩ := natSqrt_spec (m * 2 ^ 1074 * 2 ^ 1074)
  obtain ⟨-, hb⟩ := natSqrt_scaled_bounds n h1 (by omega)
  generalize natSqrt (n * 2 ^ 1074 * 2 ^ 1074) = rn at hlo hb ⊢
  generalize natSqrt (m * 2 ^ 1074 * 2 ^ 1074) = rm at hhi ⊢
  by_contra hc
  have hc' : rm + 1 ≤ rn + 2 ^ 1050 := by omega
  have hsq := Nat.mul_le_mul hc' hc'
  have e : (rn + 2 ^ 1050) * (rn + 2 ^ 1050) = rn * rn + 2 ^ 1051 * rn + 2 ^ 2100 := by
    have e1 : (2 : Nat) ^ 1051 = 2 * 2 ^ 1050 := by rw [pow_succ]; ring
    have e2 : (2 : Nat) ^ 2100 = 2 ^ 1050 * 2 ^ 1050 := by rw [← pow_add]
    rw [e1, e2]; ring
  have h3 : (n + 1) * 2 ^ 1074 * 2 ^ 1074 ≤ m * 2 ^ 1074 * 2 ^ 1074 :=
    Nat.mul_le_mul_right _ (Nat.mul_le_mul_right _ hnm)
  have e3 : (n + 1) * 2 ^ 1074 * 2 ^ 1074 = n * 2 ^ 1074 * 2 ^ 1074 + 2 ^ 2148 := by
    have : (2 : Nat) ^ 2148 = 2 ^ 1074 * 2 ^ 1074 := by rw [← pow_add]
    rw [this]; ring
  have h4 : 2 ^ 1051 * rn ≤ 2 ^ 1051 * 2 ^ 1096 := Nat.mul_le_mul_left _ (by omega)
  have e4 : (2 : Nat) ^ 1051 * 2 ^ 1096 = 2 ^ 2147 := by rw [← pow_add]
  have e5 : (2 : Nat) ^ 2148 = 2 ^ 2147 + 2 ^ 2147 := by rw [pow_succ]; ring
  have e6 : (2 : Nat) ^ 2100 < 2 ^ 2147 := Nat.pow_lt_pow_right (by norm_num) (by norm_num)
  generalize n * 2 ^ 1074 * 2 ^ 1074 = A at *
  generalize m * 2 ^ 1074 * 2 ^ 1074 = B at *
  generalize (rm + 1) * (rm + 1) = C at *
  generalize rn * rn = D at *
  generalize 2 ^ 1051 * rn = E at *
  generalize (rn + 2 ^ 1050) * (rn + 2 ^ 1050) = F at *
  omega


/-- The square root of the integer `n`, `1 ≤ n < 2 ^ 44`: a finite number within
`2 ^ 1043` half-units of the integer square root of `n * 2 ^ 2148`. -/
theorem sqrt_scaled (n : Nat) (h1 : 1 ≤ n) (h2 : n < 2 ^ 44) :
    ∃ u, sqrt (finite false (n * 2 ^ 1074)) = finite false u ∧
      2 * natSqrt (n * 2 ^ 1074 * 2 ^ 1074) ≤ 2 * u + 2 ^ 1043 ∧
      2 * u ≤ 2 * natSqrt (n * 2 ^ 1074 * 2 ^ 1074) + 1 + 2 ^ 1043 := by
  obtain ⟨hlo, hhi⟩ := natSqrt_scaled_bounds n h1 h2
  have hn0 : ¬ n * 2 ^ 1074 = 0 := by positivity
  unfold sqrt
  simp only [hn0, if_false, Bool.false_eq_true]
  generalize natSqrt (n * 2 ^ 1074 * 2 ^ 1074) = r at hlo hhi ⊢
  generalize hv : 2 * r + (if r * r = n * 2 ^ 1074 * 2 ^ 1074 then 0 else 1) = v
  have hv1 : 2 * r ≤ v := by rw [← hv]; omega
  have hv2 : v ≤ 2 * r + 1 := by rw [← hv]; split <;> omega
  have e1097 : (2 : Nat) ^ 1097 = 2 * 2 ^ 1096 := by rw [pow_succ]; ring
  have hbl : bitLength v ≤ 1097 := bitLength_le v 1097 (by omega)
  unfold round
  simp only
  generalize hsh : max (bitLength v - 53) 1 = sh
  have hsh1 : 1 ≤ sh := by omega
  have hsh2 : sh - 1 ≤ 1043 := by omega
  obtain ⟨hb1, hb2⟩ := roundNearestEven_bounds v sh hsh1
  have e2 : 2 ^ sh = 2 * 2 ^ (sh - 1) := by
    have : sh = (sh - 1) + 1 := by omega
    conv_lhs => rw [this, pow_succ]
    ring
  have hp : 2 ^ (sh - 1) ≤ 2 ^ 1043 := Nat.pow_le_pow_right (by norm_num) hsh2
  have e3 : roundNearestEven v sh * 2 ^ sh = 2 * (roundNearestEven v sh * 2 ^ (sh - 1)) := by
    rw [e2]; ring
  rw [e3] at hb1 hb2
  generalize roundNearestEven v sh * 2 ^ (sh - 1) = u at hb1 hb2 ⊢
  have e4 : (2 : Nat) ^ 1043 < 2 ^ 1096 := Nat.pow_lt_pow_right (by norm_num) (by norm_num)
  have e5 : (2 : Nat) ^ 1097 < 2 ^ 2098 := Nat.pow_lt_pow_right (by norm_num) (by norm_num)
  have hno : ¬ 2 ^ 2098 ≤ u := by omega
  refine ⟨u, ?_, by omega, by omega⟩
  unfold ofMagnitude
  simp only [hno, if_false]


/-- On the integers from 0 to `2 ^ 44` the square root is strictly increasing: the rounding of
the root does not merge two of them. -/
theorem sqrt_ofInt_lt (n m : Int) (hn : 0 ≤ n) (hnm : n < m) (hm : m < 2 ^ 44) :
    sqrt (ofInt n) < sqrt (ofInt m) := by
  obtain ⟨N, rfl⟩ := Int.eq_ofNat_of_zero_le hn
  obtain ⟨M, rfl⟩ := Int.eq_ofNat_of_zero_le (by omega : (0 : Int) ≤ m)
  have hNM : N < M := by exact_mod_cast hnm
  have hM : M < 2 ^ 44 := by exact_mod_cast hm
  have e44 : (2 : Nat) ^ 44 < 2 ^ 53 := Nat.pow_lt_pow_right (by norm_num) (by norm_num)
  rw [ofInt_eq N (by simp; omega), ofInt_eq M (by simp; omega)]
  simp only [Int.natAbs_ofNat, Int.natCast_nonneg, not_lt.mpr, decide_False]
  obtain ⟨um, hum, hm1, -⟩ := sqrt_scaled M (by omega) hM
  obtain ⟨hlo, -⟩ := natSqrt_scaled_bounds M (by omega) hM
  have e1 : (2 : Nat) ^ 1043 < 2 ^ 1074 := Nat.pow_lt_pow_right (by norm_num) (by norm_num)
  rw [hum]
  by_cases hN0 : N = 0
  · subst hN0
    have : sqrt (finite false (0 * 2 ^ 1074)) = finite false 0 := by
      simp only [Nat.zero_mul, sqrt, if_true]
    rw [this]
    simp only [lt_def, lt, decide_eq_true_eq]
    omega
  · obtain ⟨un, hun, -, hn2⟩ := sqrt_scaled N (by omega) (by omega)
    have hgap := natSqrt_scaled_gap N M (by omega) hNM hM
    rw [hun]
    simp only [lt_def, lt, decide_eq_true_eq]
    have e2 : (2 : Nat) ^ 1050 = 2 ^ 7 * 2 ^ 1043 := by rw [← pow_add]
    omega

/-- The square root of an integer from 0 to `2 ^ 44` is finite, below `DBL_MAX`. -/
theorem sqrt_ofInt_lt_max (m : Int) (h0 : 0 ≤ m) (hm : m < 2 ^ 44) :
    lt (sqrt (ofInt m)) (finite false ((2 ^ 53 - 1) * 2 ^ 2045)) = true := by
  obtain ⟨M, rfl⟩ := Int.eq_ofNat_of_zero_le h0
  have hM : M < 2 ^ 44 := by exact_mod_cast hm
  have e44 : (2 : Nat) ^ 44 < 2 ^ 53 := Nat.pow_lt_pow_right (by norm_num) (by norm_num)
  rw [ofInt_eq M (by simp; omega)]
  simp only [Int.natAbs_ofNat, Int.natCast_nonneg, not_lt.mpr, decide_False]
  have hmax : 2 ^ 2045 ≤ (2 ^ 53 - 1) * 2 ^ 2045 :=
    Nat.le_mul_of_pos_left _ (by norm_num)
  have e3 : (2 : Nat) ^ 1097 < 2 ^ 2045 := Nat.pow_lt_pow_right (by norm_num) (by norm_num)
  by_cases hM0 : M = 0
  · subst hM0
    have : sqrt (finite false (0 * 2 ^ 1074)) = finite false 0 := by
      simp only [Nat.zero_mul, sqrt, if_true]
    rw [this]
    simp only [lt, decide_eq_true_eq]
    have : 0 < 2 ^ 2045 := by positivity
    omega
  · obtain ⟨um, hum, -, hm2⟩ := sqrt_scaled M (by omega) hM
    obtain ⟨-, hhi⟩ := natSqrt_scaled_bounds M (by omega) hM
    rw [hum]
    simp only [lt, decide_eq_true_eq]
    have e1 : (2 : Nat) ^ 1043 < 2 ^ 1096 := Nat.pow_lt_pow_right (by norm_num) (by norm_num)
    have e2 : (2 : Nat) ^ 1097 = 2 * 2 ^ 1096 := by rw [pow_succ]; ring
    omega

theorem toUnits_ofInt (x : Int) (hx : x.natAbs < 2 ^ 53) :
    (ofInt x).toUnits = x * 2 ^ 1074 := by
  rw [ofInt_eq x hx]
  unfold toUnits
  by_cases h : x < 0
  · simp only [h, decide_True, if_true, Nat.cast_mul, Nat.cast_pow, Nat.cast_ofNat]
    rw [← Int.neg_mul]
    congr 1
    omega
  · simp only [h, decide_False, Bool.false_eq_true, if_false, Nat.cast_mul, Nat.cast_pow,
      Nat.cast_ofNat]
    congr 1
    omega


/-- The arithmetic agrees with IEEE 754 binary64 on reference values: `0.1 + 0.2`,
`0.1 * 0.1`, `0.1 - 0.3`, `0.1 + 10`, the square roots of 2 and of 0.1, ties rounded to the
even neighbour, overflow, the subnormal numbers, the signed zeros and the invalid
operations. -/
theorem reference_values :
    finite false (3602879701896397 * 2 ^ 1019) + finite false (3602879701896397 * 2 ^ 1020)
      = finite false (1351079888211149 * 2 ^ 1022) ∧
    finite false (3602879701896397 * 2 ^ 1019) * finite false (3602879701896397 * 2 ^ 1019)
      = finite false (1441151880758559 * 2 ^ 1017) ∧
    finite false (3602879701896397 * 2 ^ 1019) - finite false (5404319552844595 * 2 ^ 1020)
      = finite true (7205759403792793 * 2 ^ 1019) ∧
    finite false (3602879701896397 * 2 ^ 1019) + 10
      = finite false (5685794529555251 * 2 ^ 1025) ∧
    sqrt 2 = finite false (6369051672525773 * 2 ^ 1022) ∧
    sqrt (finite false (3602879701896397 * 2 ^ 1019))
      = finite false (5696652996790543 * 2 ^ 1020) ∧
    sqrt 25 = 5 ∧
    ofInt (2 ^ 53 + 1) = ofInt (2 ^ 53) ∧
    ofInt (2 ^ 53 + 3) = ofInt (2 ^ 53 + 4) ∧
    ofInt (2 ^ 53) + 1 = ofInt (2 ^ 53) ∧
    DBL_MAX + DBL_MAX = inf false ∧
    DBL_MAX * 2 = inf false ∧
    DBL_MAX + 1 = DBL_MAX ∧
    finite false 1 * finite false (2 ^ 1073) = finite false 0 ∧
    finite false 3 * finite false (2 ^ 1073) = finite false 2 ∧
    sqrt (finite false 1) = finite false (2 ^ 537) ∧
    (1 : double) - 1 = finite false 0 ∧
    finite true 0 + finite true 0 = finite true 0 ∧
    (-1 : double) * 0 = finite true 0 ∧
    sqrt (finite true 0) = finite true 0 ∧
    sqrt (-1) = nan ∧
    inf false - inf false = nan ∧
    inf false * 0 = nan ∧
    lt (finite true 0) (finite false 0) = false ∧
    lt nan 1 = false ∧ lt 1 nan = false ∧
    lt DBL_MAX (inf false) = true ∧ lt (inf false) DBL_MAX = false := by
  decide!


/-- Rounding yields a number of binary64. -/
theorem round_IsBinary64 (s : Bool) (n k : Nat) : (round s n k).IsBinary64 := by
  unfold round
  simp only
  generalize hsh : max (bitLength n - 53) k = sh
  have hq : n / 2 ^ sh < 2 ^ 53 := by
    apply Nat.div_lt_of_lt_mul
    have h1 := lt_pow_bitLength n
    have h2 : 2 ^ bitLength n ≤ 2 ^ sh * 2 ^ 53 := by
      rw [← pow_add]
      exact Nat.pow_le_pow_right (by norm_num) (by omega)
    omega
  have hq' : roundNearestEven n sh ≤ 2 ^ 53 := by
    unfold roundNearestEven
    simp only
    split <;> omega
  generalize roundNearestEven n sh = q at hq'
  unfold ofMagnitude
  split
  · trivial
  · rename_i hno
    refine ⟨by omega, ?_⟩
    rcases Nat.lt_or_eq_of_le hq' with hlt | heq
    · have h1 : q * 2 ^ (sh - k) < 2 ^ (53 + (sh - k)) := by
        rw [pow_add]
        exact Nat.mul_lt_mul_of_pos_right hlt (pow_pos (by norm_num) _)
      have h2 := bitLength_le _ _ h1
      exact Dvd.dvd.mul_left (Nat.pow_dvd_pow 2 (by omega)) q
    · subst heq
      rw [← pow_add]
      have h1 : 2 ^ (53 + (sh - k)) < 2 ^ (54 + (sh - k)) :=
        Nat.pow_lt_pow_right (by norm_num) (by omega)
      have h2 := bitLength_le _ _ h1
      exact Nat.pow_dvd_pow 2 (by omega)

theorem zero_IsBinary64 (s : Bool) : (finite s 0).IsBinary64 :=
  ⟨by positivity, Nat.dvd_zero _⟩

/-- The operations of the arithmetic yield numbers of binary64. -/
theorem IsBinary64_closed (a b : double) (ha : a.IsBinary64) :
    (a + b).IsBinary64 ∧ (a - b).IsBinary64 ∧ (a * b).IsBinary64 ∧ (sqrt a).IsBinary64 ∧
    (neg a).IsBinary64 ∧ (abs a).IsBinary64 ∧ ∀ z : Int, (ofInt z).IsBinary64 := by
  have hadd : ∀ x y : double, (add x y).IsBinary64 := by
    intro x y
    cases x with
    | nan => cases y <;> trivial
    | inf sa =>
      cases y with
      | nan => trivial
      | inf sb =>
        show (if sa = sb then inf sa else nan).IsBinary64
        split <;> trivial
      | finite sb nb => trivial
    | finite sa na =>
      cases y with
      | nan => trivial
      | inf sb => trivial
      | finite sb nb =>
        show (if sa = sb then round sa (na + nb) 0
          else if nb < na then round sa (na - nb) 0
          else if na < nb then round sb (nb - na) 0
          else finite false 0).IsBinary64
        split
        · exact round_IsBinary64 _ _ _
        · split
          · exact round_IsBinary64 _ _ _
          · split
            · exact round_IsBinary64 _ _ _
            · exact zero_IsBinary64 _
  refine ⟨hadd a b, hadd a (neg b), ?_, ?_, ?_, ?_, fun z => round_IsBinary64 _ _ _⟩
  · cases a with
    | nan => cases b <;> trivial
    | inf sa =>
      cases b with
      | nan => trivial
      | inf sb => trivial
      | finite sb nb => show (if nb = 0 then nan else inf (sa != sb)).IsBinary64; split <;> trivial
    | finite sa na =>
      cases b with
      | nan => trivial
      | inf sb => show (if na = 0 then nan else inf (sa != sb)).IsBinary64; split <;> trivial
      | finite sb nb =>
        have e : finite sa na * finite sb nb = mul (finite sa na) (finite sb nb) := rfl
        rw [e]
        simp only [mul]
        exact round_IsBinary64 _ _ _
  · cases a with
    | nan => trivial
    | inf sa =>
      show (if sa then nan else inf false).IsBinary64
      split <;> trivial
    | finite sa na =>
      show (if na = 0 then finite sa 0
        else if sa then nan
        else round false (2 * natSqrt (na * 2 ^ 1074) +
          (if natSqrt (na * 2 ^ 1074) * natSqrt (na * 2 ^ 1074) = na * 2 ^ 1074
            then 0 else 1)) 1).IsBinary64
      split
      · exact zero_IsBinary64 _
      · split
        · trivial
        · exact round_IsBinary64 _ _ _
  · cases a with
    | nan => trivial
    | inf sa => trivial
    | finite sa na => exact ha
  · cases a with
    | nan => trivial
    | inf sa => trivial
    | finite sa na => exact ha

/-- The constant `DBL_MAX` is a number of binary64, the greatest finite one. -/
theorem DBL_MAX_IsBinary64 : IsBinary64 (finite false ((2 ^ 53 - 1) * 2 ^ 2045)) := by
  have h1 : (2 ^ 53 - 1) * 2 ^ 2045 < 2 ^ 53 * 2 ^ 2045 :=
    Nat.mul_lt_mul_of_pos_right (by norm_num) (pow_pos (by norm_num) _)
  have e : (2 : Nat) ^ 53 * 2 ^ 2045 = 2 ^ 2098 := by rw [← pow_add]
  rw [e] at h1
  have h2 := bitLength_le _ _ h1
  exact ⟨h1, Dvd.dvd.mul_left (Nat.pow_dvd_pow 2 (by omega)) _⟩

end double
/-! ## Auxiliary lemmas -/

theorem LookLoop_ok (q : QGraphicsScene) (f : double → double → Bool) (fi : QGraphicsItem)
    (h : q.focusItem = some fi) (l : List QGraphicsItem) :
    LookLoop q f l = .ok (l.filter (fun item =>
      f (item.pos.x - fi.pos.x) (item.pos.y - fi.pos.y) && !item.isSelected)) := by
  induction l with
  | nil => simp [LookLoop]
  | cons item rest ih =>
    simp only [LookLoop, h, ih, Result.bind, List.filter_cons]
    cases hf : f (item.pos.x - fi.pos.x) (item.pos.y - fi.pos.y) <;>
      cases hs : item.isSelected <;> simp

theorem LookLoop_null (q : QGraphicsScene) (f : double → double → Bool)
    (h : q.focusItem = none) (l : List QGraphicsItem) :
    LookLoop q f l = if l.isEmpty then .ok [] else .fault .nullDereference := by
  cases l with
  | nil => simp [LookLoop]
  | cons item rest => simp [LookLoop, h]

/-- Specification of the loop of `GetClosest` from an accumulator `best` with the bound
`bd` on the distance. -/
theorem GetClosestLoop_spec (f : QGraphicsItem) (l : List QGraphicsItem) :
    ∀ (best : Option QGraphicsItem) (bd : double),
    ∃ r, GetClosestLoop (some f) l best bd = .ok r ∧
      ((r = best ∧ ∀ c ∈ l, c.ItemIsFocusable = true → c.isVisible = true →
          ¬ GetDistance f.pos c.pos < bd) ∨
       (∃ pre b post, l = pre ++ b :: post ∧ r = some b ∧
          b.ItemIsFocusable = true ∧ b.isVisible = true ∧
          GetDistance f.pos b.pos < bd ∧
          (∀ c ∈ pre, c.ItemIsFocusable = true → c.isVisible = true →
            GetDistance f.pos c.pos < bd → GetDistance f.pos b.pos < GetDistance f.pos c.pos) ∧
          (∀ c ∈ post, c.ItemIsFocusable = true → c.isVisible = true →
            ¬ GetDistance f.pos c.pos < GetDistance f.pos b.pos))) := by
  induction l with
  | nil => intro best bd; exact ⟨best, by simp [GetClosestLoop], Or.inl ⟨rfl, by simp⟩⟩
  | cons item rest ih =>
    intro best bd
    by_cases hfoc : item.ItemIsFocusable = true
    · by_cases hvis : item.isVisible = true
      · by_cases hless : GetDistance f.pos item.pos < bd
        · obtain ⟨r, hr, hspec⟩ := ih (some item) (GetDistance f.pos item.pos)
          refine ⟨r, ?_, ?_⟩
          · simpa [GetClosestLoop, hfoc, hvis, hless] using hr
          · rcases hspec with ⟨hrb, hall⟩ | ⟨pre, b, post, hl, hrb, hbf, hbv, hb0, hpre, hpost⟩
            · exact Or.inr ⟨[], item, rest, rfl, hrb, hfoc, hvis, hless, by simp, hall⟩
            · refine Or.inr ⟨item :: pre, b, post, by simp [hl], hrb, hbf, hbv,
                double.lt_trans _ _ _ hb0 hless, ?_, hpost⟩
              intro c hc hcf hcv hcbd
              rcases List.mem_cons.mp hc with rfl | hc
              · exact hb0
              · by_cases hci : GetDistance f.pos c.pos < GetDistance f.pos item.pos
                · exact hpre c hc hcf hcv hci
                · exact double.lt_of_lt_of_not_lt _ _ _ hb0 hci
                    (double.not_isNaN_of_lt_left _ _ hcbd)
        · obtain ⟨r, hr, hspec⟩ := ih best bd
          refine ⟨r, ?_, ?_⟩
          · simpa [GetClosestLoop, hfoc, hvis, hless] using hr
          · rcases hspec with ⟨hrb, hall⟩ | ⟨pre, b, post, hl, hrb, hbf, hbv, hb0, hpre, hpost⟩
            · refine Or.inl ⟨hrb, ?_⟩
              intro c hc hcf hcv
              rcases List.mem_cons.mp hc with rfl | hc
              · exact hless
              · exact hall c hc hcf hcv
            · refine Or.inr ⟨item :: pre, b, post, by simp [hl], hrb, hbf, hbv, hb0, ?_, hpost⟩
              intro c hc hcf hcv hcbd
              rcases List.mem_cons.mp hc with rfl | hc
              · exact absurd hcbd hless
              · exact hpre c hc hcf hcv hcbd
      · obtain ⟨r, hr, hspec⟩ := ih best bd
        refine ⟨r, ?_, ?_⟩
        · simpa [GetClosestLoop, hfoc, hvis] using hr
        · rcases hspec with ⟨hrb, hall⟩ | ⟨pre, b, post, hl, hrb, hbf, hbv, hb0, hpre, hpost⟩
          · refine Or.inl ⟨hrb, ?_⟩
            intro c hc hcf hcv
            rcases List.mem_cons.mp hc with rfl | hc
            · exact absurd hcv hvis
            · exact hall c hc hcf hcv
          · refine Or.inr ⟨item :: pre, b, post, by simp [hl], hrb, hbf, hbv, hb0, ?_, hpost⟩
            intro c hc hcf hcv
            rcases List.mem_cons.mp hc with rfl | hc
            · exact absurd hcv hvis
            · exact hpre c hc hcf hcv
    · obtain ⟨r, hr, hspec⟩ := ih best bd
      refine ⟨r, ?_, ?_⟩
      · simpa [GetClosestLoop, hfoc] using hr
      · rcases hspec with ⟨hrb, hall⟩ | ⟨pre, b, post, hl, hrb, hbf, hbv, hb0, hpre, hpost⟩
        · refine Or.inl ⟨hrb, ?_⟩
          intro c hc hcf hcv
          rcases List.mem_cons.mp hc with rfl | hc
          · exact absurd hcf hfoc
          · exact hall c hc hcf hcv
        · refine Or.inr ⟨item :: pre, b, post, by simp [hl], hrb, hbf, hbv, hb0, ?_, hpost⟩
          intro c hc hcf hcv
          rcases List.mem_cons.mp hc with rfl | hc
          · exact absurd hcf hfoc
          · exact hpre c hc hcf hcv

theorem focusItem_eq_some (q : QGraphicsScene) (f : QGraphicsItem)
    (h : q.focusItem = some f) : q.focus = some f.id ∧ f ∈ q.items := by
  unfold QGraphicsScene.focusItem at h
  cases hfoc : q.focus with
  | none => simp [hfoc] at h
  | some p =>
    simp only [hfoc, QGraphicsScene.item?] at h
    have h1 := List.find?_some h
    have h2 := List.mem_of_find?_eq_some h
    simp only [beq_iff_eq] at h1
    exact ⟨by rw [h1], h2⟩

theorem mem_GetNonSelectedNonFocusItems (q : QGraphicsScene) (c : QGraphicsItem) :
    c ∈ GetNonSelectedNonFocusItems q ↔
      c ∈ q.items ∧ c.isSelected = false ∧ q.focusItem.map (fun f => f.id) ≠ some c.id := by
  unfold GetNonSelectedNonFocusItems
  simp only [List.mem_filter, Bool.not_eq_true', beq_eq_false_iff_ne, ne_eq]
  constructor
  · rintro ⟨⟨h1, h2⟩, h3⟩
    exact ⟨h1, h2, fun h => h3 h.symm⟩
  · rintro ⟨h1, h2, h3⟩
    exact ⟨⟨h1, h2⟩, fun h => h3 h.symm⟩

theorem Look_ok (q : QGraphicsScene) (g : double → double → Bool) (f : QGraphicsItem)
    (h : q.focusItem = some f) :
    Look q g = .ok ((GetNonSelectedNonFocusItems q).filter (fun item =>
      g (item.pos.x - f.pos.x) (item.pos.y - f.pos.y) && !item.isSelected)) := by
  unfold Look
  exact LookLoop_ok q g f h _

theorem mem_Look (q : QGraphicsScene) (g : double → double → Bool) (f : QGraphicsItem)
    (h : q.focusItem = some f) (c : QGraphicsItem) :
    c ∈ (GetNonSelectedNonFocusItems q).filter (fun item =>
      g (item.pos.x - f.pos.x) (item.pos.y - f.pos.y) && !item.isSelected) ↔
    c ∈ q.items ∧ c.isSelected = false ∧ c.id ≠ f.id ∧
      g (c.pos.x - f.pos.x) (c.pos.y - f.pos.y) = true := by
  simp only [List.mem_filter, mem_GetNonSelectedNonFocusItems, h, Option.map_some', ne_eq,
    Option.some.injEq, Bool.and_eq_true, Bool.not_eq_true']
  constructor
  · rintro ⟨⟨h1, h2, h3⟩, h4, -⟩
    exact ⟨h1, h2, fun e => h3 e.symm, h4⟩
  · rintro ⟨h1, h2, h3, h4⟩
    exact ⟨⟨h1, h2, fun e => h3 e.symm⟩, h4, h2⟩

theorem Look_null (q : QGraphicsScene) (g : double → double → Bool) (h : q.focusItem = none) :
    Look q g = if (GetNonSelectedNonFocusItems q).isEmpty then .ok []
      else .fault .nullDereference := by
  unfold Look
  exact LookLoop_null q g h _

theorem GetClosestLoop_mem (fo : Option QGraphicsItem) (l : List QGraphicsItem) :
    ∀ (best : Option QGraphicsItem) (bd : double) (r : QGraphicsItem),
      GetClosestLoop fo l best bd = .ok (some r) →
      (r ∈ l ∧ r.ItemIsFocusable = true ∧ r.isVisible = true) ∨ best = some r := by
  induction l with
  | nil =>
    intro best bd r h
    simp only [GetClosestLoop, Result.ok.injEq] at h
    exact Or.inr h
  | cons item rest ih =>
    intro best bd r h
    have lift : ∀ best' bd', GetClosestLoop fo rest best' bd' = .ok (some r) →
        best' = best ∨ (best' = some item ∧ item.ItemIsFocusable = true ∧
          item.isVisible = true) →
        (r ∈ item :: rest ∧ r.ItemIsFocusable = true ∧ r.isVisible = true) ∨
          best = some r := by
      intro best' bd' h' hb
      rcases ih best' bd' r h' with ⟨hm, hf, hv⟩ | hbr
      · exact Or.inl ⟨List.mem_cons_of_mem _ hm, hf, hv⟩
      · rcases hb with hb | ⟨hb, hf, hv⟩
        · exact Or.inr (hb ▸ hbr)
        · rw [hb] at hbr
          cases hbr
          exact Or.inl ⟨List.mem_cons_self _ _, hf, hv⟩
    unfold GetClosestLoop at h
    by_cases hfoc : item.ItemIsFocusable = true
    · by_cases hvis : item.isVisible = true
      · cases fo with
        | none => simp [hfoc, hvis] at h
        | some focus =>
          simp only [hfoc, hvis, Bool.not_true, Bool.false_eq_true, if_false] at h
          split at h
          · exact lift _ _ h (Or.inr ⟨rfl, hfoc, hvis⟩)
          · exact lift _ _ h (Or.inl rfl)
      · simp only [hfoc, hvis, Bool.not_true, Bool.false_eq_true, if_false] at h
        simp only [Bool.not_eq_true] at hvis
        simp only [hvis, Bool.not_false, if_true] at h
        exact lift _ _ h (Or.inl rfl)
    · simp only [Bool.not_eq_true] at hfoc
      simp only [hfoc, Bool.not_false, if_true] at h
      exact lift _ _ h (Or.inl rfl)

theorem GetClosest_mem (fo : Option QGraphicsItem) (l : List QGraphicsItem)
    (r : QGraphicsItem) (h : GetClosest fo l = .ok (some r)) :
    r ∈ l ∧ r.ItemIsFocusable = true ∧ r.isVisible = true := by
  unfold GetClosest at h
  split at h
  · simp at h
  · rcases GetClosestLoop_mem fo l none DBL_MAX r h with h' | h'
    · exact h'
    · simp at h'

theorem Result_bind_select_id (r : Result (Option QGraphicsItem)) :
    (r.bind (fun closest_item =>
      match closest_item with
      | none => .ok none
      | some item => .ok (some item))) = r := by
  cases r with
  | ok c => cases c <;> rfl
  | fault e => rfl

theorem GetClosest_of_isEmpty (fo : Option QGraphicsItem) (v : List QGraphicsItem)
    (h : v.isEmpty = true) : GetClosest fo v = .ok none := by
  simp [GetClosest, h]

theorem search_skeleton (fo : Option QGraphicsItem) (vs vl : List QGraphicsItem) :
    (Result.ok vs).bind (fun v =>
      (if v.isEmpty then Result.ok vl else .ok v).bind (fun v =>
        if v.isEmpty then .ok none
        else
          (GetClosest fo v).bind (fun closest_item =>
            match closest_item with
            | none => .ok none
            | some item => .ok (some item)))) =
    GetClosest fo (if vs.isEmpty then vl else vs) := by
  by_cases hvs : vs.isEmpty = true
  · by_cases hvl : vl.isEmpty = true
    · simp [Result.bind, hvs, hvl, GetClosest_of_isEmpty]
    · have h := Result_bind_select_id (GetClosest fo vl)
      simp only [Result.bind] at h
      simp [Result.bind, hvs, hvl, h]
  · have h := Result_bind_select_id (GetClosest fo vs)
    simp only [Result.bind] at h
    simp [Result.bind, hvs, h]

/-- The list that `GetClosestNonselectedItem` hands to `GetClosest`: the strict set, or
the loose set when the strict set is empty. -/
theorem GetClosestNonselectedItem_eq (q : QGraphicsScene) (fo : Option QGraphicsItem)
    (d : Direction) (f : QGraphicsItem) (h : q.focusItem = some f) :
    GetClosestNonselectedItem q fo d =
      GetClosest fo
        (if ((GetNonSelectedNonFocusItems q).filter (fun item =>
              GetStrictSearchFunction d (item.pos.x - f.pos.x) (item.pos.y - f.pos.y)
                && !item.isSelected)).isEmpty
         then (GetNonSelectedNonFocusItems q).filter (fun item =>
              GetLooseSearchFunction d (item.pos.x - f.pos.x) (item.pos.y - f.pos.y)
                && !item.isSelected)
         else (GetNonSelectedNonFocusItems q).filter (fun item =>
              GetStrictSearchFunction d (item.pos.x - f.pos.x) (item.pos.y - f.pos.y)
                && !item.isSelected)) := by
  unfold GetClosestNonselectedItem
  rw [Look_ok q _ f h, Look_ok q _ f h]
  exact search_skeleton fo _ _

theorem GetClosestNonselectedItem_null (q : QGraphicsScene) (fo : Option QGraphicsItem)
    (d : Direction) (h : q.focusItem = none) :
    GetClosestNonselectedItem q fo d =
      if (GetNonSelectedNonFocusItems q).isEmpty then .ok none
      else .fault .nullDereference := by
  unfold GetClosestNonselectedItem
  rw [Look_null q _ h, Look_null q _ h]
  by_cases hv : (GetNonSelectedNonFocusItems q).isEmpty = true
  · simp [hv, Result.bind]
  · simp [hv, Result.bind]

theorem perm_three {α : Type} (a b c : α) (l : List α) (h : l.Perm [a, b, c]) :
    l = [a, b, c] ∨ l = [b, a, c] ∨ l = [c, b, a] ∨ l = [b, c, a] ∨ l = [c, a, b] ∨
      l = [a, c, b] := by
  have h' := List.mem_permutations.mpr h
  simpa [List.permutations, List.permutationsAux, List.permutationsAux.rec,
    List.permutationsAux2] using h'

/-- Source `GetClosest`: what it returns, in terms of the distances it computes. -/
theorem GetClosest_spec (focus : QGraphicsItem) (items : List QGraphicsItem) :
    (GetClosest (some focus) items = .ok none ∧
      ∀ c ∈ items, c.ItemIsFocusable = true → c.isVisible = true →
        ¬ GetDistance focus.pos c.pos < DBL_MAX) ∨
    (∃ pre b post, items = pre ++ b :: post ∧
      GetClosest (some focus) items = .ok (some b) ∧
      b.ItemIsFocusable = true ∧ b.isVisible = true ∧
      GetDistance focus.pos b.pos < DBL_MAX ∧
      (∀ c ∈ pre, c.ItemIsFocusable = true → c.isVisible = true →
        GetDistance focus.pos b.pos < GetDistance focus.pos c.pos ∨
          (GetDistance focus.pos c.pos).isNaN = true) ∧
      (∀ c ∈ post, c.ItemIsFocusable = true → c.isVisible = true →
        ¬ GetDistance focus.pos c.pos < GetDistance focus.pos b.pos)) := by
  cases hitems : items with
  | nil => exact Or.inl ⟨by simp [GetClosest], by simp⟩
  | cons item rest =>
    obtain ⟨r, hr, hspec⟩ := GetClosestLoop_spec focus (item :: rest) none DBL_MAX
    have hget : GetClosest (some focus) (item :: rest) = .ok r := by
      simpa [GetClosest] using hr
    rcases hspec with ⟨hrb, hall⟩ | ⟨pre, b, post, hl, hrb, hbf, hbv, hbd, hpre, hpost⟩
    · exact Or.inl ⟨by rw [hget, hrb], hall⟩
    · refine Or.inr ⟨pre, b, post, hl, by rw [hget, hrb], hbf, hbv, hbd, ?_, hpost⟩
      intro c hc hcf hcv
      by_cases hnan : (GetDistance focus.pos c.pos).isNaN = true
      · exact Or.inr hnan
      · simp only [Bool.not_eq_true] at hnan
        by_cases hcbd : GetDistance focus.pos c.pos < DBL_MAX
        · exact Or.inl (hpre c hc hcf hcv hcbd)
        · exact Or.inl (double.lt_of_lt_of_not_lt _ _ _ hbd hcbd hnan)

theorem GetClosest_none_iff (f : QGraphicsItem) (v : List QGraphicsItem) :
    ∃ r, GetClosest (some f) v = .ok r ∧
      (r = none ↔ ∀ c ∈ v, ¬ (c.ItemIsFocusable = true ∧ c.isVisible = true ∧
        GetDistance f.pos c.pos < DBL_MAX)) := by
  rcases GetClosest_spec f v with ⟨h1, h2⟩ | ⟨pre, b, post, hl, hg, hbf, hbv, hbd, -⟩
  · refine ⟨none, h1, ?_⟩
    simp only [true_iff]
    intro c hc hcc
    exact h2 c hc hcc.1 hcc.2.1 hcc.2.2
  · refine ⟨some b, hg, ?_⟩
    constructor
    · intro h; cases h
    · intro h
      exact absurd ⟨hbf, hbv, hbd⟩ (h b (by rw [hl]; simp))

theorem WellFormed_inj (s : QGraphicsScene) (h : s.WellFormed) (a b : QGraphicsItem)
    (ha : a ∈ s.items) (hb : b ∈ s.items) (hid : a.id = b.id) : a = b :=
  List.inj_on_of_nodup_map h ha hb hid

theorem item?_of_mem (s : QGraphicsScene) (h : s.WellFormed) (c : QGraphicsItem)
    (hc : c ∈ s.items) : s.item? c.id = some c := by
  unfold QGraphicsScene.item?
  cases hfind : s.items.find? (fun item => item.id == c.id) with
  | none =>
    have := List.find?_eq_none.mp hfind c hc
    simp at this
  | some a =>
    have h1 := List.find?_some hfind
    have h2 := List.mem_of_find?_eq_some hfind
    simp only [beq_iff_eq] at h1
    rw [WellFormed_inj s h a c h2 hc h1]

theorem item?_modifyItem (s : QGraphicsScene) (p p' : Nat) (g : QGraphicsItem → QGraphicsItem)
    (hg : ∀ it, (g it).id = it.id) :
    (s.modifyItem p g).item? p' = (s.item? p').map (fun it => if it.id = p then g it else it) := by
  unfold QGraphicsScene.item? QGraphicsScene.modifyItem
  simp only [List.find?_map]
  congr 1
  congr 1
  funext it
  simp only [Function.comp]
  split <;> simp [hg]

/-- Deselecting the items of a list, one `setSelected(false)` at a time. -/
theorem foldl_deselect (L : List QGraphicsItem) :
    ∀ s : QGraphicsScene,
      L.foldl (fun s item => s.setSelected item.id false) s =
        { s with items := s.items.map (fun it =>
            if it.id ∈ L.map (fun a => a.id) then { it with isSelected := false } else it) } := by
  induction L with
  | nil => intro s; simp
  | cons a L ih =>
    intro s
    rw [List.foldl_cons, ih]
    simp only [QGraphicsScene.setSelected, QGraphicsScene.modifyItem, List.map_map,
      List.map_cons, List.mem_cons, Bool.false_and]
    congr 1
    apply List.map_congr_left
    intro it _
    simp only [Function.comp]
    by_cases h1 : it.id = a.id
    · simp [h1]
    · simp [h1]

/-- The loop `for (item : selectedItems()) item->setSelected(false)` deselects every
item and changes nothing else. -/
theorem deselect_all (s : QGraphicsScene) :
    s.selectedItems.foldl (fun s item => s.setSelected item.id false) s =
      { s with items := s.items.map (fun it => { it with isSelected := false }) } := by
  rw [foldl_deselect]
  congr 1
  apply List.map_congr_left
  intro it hit
  split
  · rfl
  · rename_i hnot
    have hsel : it.isSelected = false := by
      by_contra hs
      simp only [Bool.not_eq_false] at hs
      apply hnot
      simp only [QGraphicsScene.selectedItems, List.mem_map, List.mem_filter]
      exact ⟨it, ⟨hit, hs⟩, rfl⟩
    cases it
    simp_all

theorem clearFocus_focus (s : QGraphicsScene) (p : Nat) (h : s.focus = some p) :
    s.clearFocus p = { s with focus := none } := by
  simp [QGraphicsScene.clearFocus, h]

theorem GetClosestNonselectedItemKey_some (q : QGraphicsScene) (f c : QGraphicsItem)
    (key : Key) (hfocus : q.focusItem = some f)
    (h : GetClosestNonselectedItemKey q (some f) key = .ok (some c)) :
    (key = .Key_Up ∨ key = .Key_Right ∨ key = .Key_Down ∨ key = .Key_Left) ∧
    c ∈ q.items ∧ c.isSelected = false ∧ c.id ≠ f.id ∧
    c.ItemIsFocusable = true ∧ c.isVisible = true := by
  have core : ∀ d, GetClosestNonselectedItem q (some f) d = .ok (some c) →
      c ∈ q.items ∧ c.isSelected = false ∧ c.id ≠ f.id ∧
      c.ItemIsFocusable = true ∧ c.isVisible = true := by
    intro d hd
    rw [GetClosestNonselectedItem_eq q (some f) d f hfocus] at hd
    obtain ⟨hmem, hcf, hcv⟩ := GetClosest_mem _ _ c hd
    have hr : c ∈ q.items ∧ c.isSelected = false ∧ c.id ≠ f.id := by
      split at hmem
      · have := (mem_Look q _ f hfocus c).mp hmem
        exact ⟨this.1, this.2.1, this.2.2.1⟩
      · have := (mem_Look q _ f hfocus c).mp hmem
        exact ⟨this.1, this.2.1, this.2.2.1⟩
    exact ⟨hr.1, hr.2.1, hr.2.2, hcf, hcv⟩
  cases key with
  | Key_Up => exact ⟨Or.inl rfl, core _ h⟩
  | Key_Right => exact ⟨Or.inr (Or.inl rfl), core _ h⟩
  | Key_Down => exact ⟨Or.inr (Or.inr (Or.inl rfl)), core _ h⟩
  | Key_Left => exact ⟨Or.inr (Or.inr (Or.inr rfl)), core _ h⟩
  | Key_Space => simp [GetClosestNonselectedItemKey] at h
  | Key_Other n => simp [GetClosestNonselectedItemKey] at h

theorem item?_focus (q : QGraphicsScene) (f : QGraphicsItem) (h : q.focusItem = some f) :
    q.item? f.id = some f := by
  have hf := (focusItem_eq_some q f h).1
  unfold QGraphicsScene.focusItem at h
  rw [hf] at h
  exact h

theorem scene_map_congr (l : List QGraphicsItem) (foc : Option Nat)
    (F G : QGraphicsItem → QGraphicsItem) (h : ∀ it ∈ l, F it = G it) :
    ({ items := l.map F, focus := foc } : QGraphicsScene) = { items := l.map G, focus := foc } := by
  rw [List.map_congr_left h]

theorem item?_map (l : List QGraphicsItem) (foc : Option Nat) (p : Nat)
    (F : QGraphicsItem → QGraphicsItem) (hF : ∀ it, (F it).id = it.id) :
    QGraphicsScene.item? { items := l.map F, focus := foc } p =
      (QGraphicsScene.item? { items := l, focus := foc } p).map F := by
  simp only [QGraphicsScene.item?, List.find?_map]
  congr 1
  congr 1
  funext it
  simp [Function.comp, hF]

theorem ReallyLoseFocus_eq (q : QGraphicsScene) (f : QGraphicsItem)
    (hfocus : q.focusItem = some f) (hen : f.isEnabled = true) :
    ReallyLoseFocus q =
      { items := q.items.map (fun it =>
          if it.id = f.id then { it with isSelected := false, isEnabled := true } else it),
        focus := none } := by
  have hf := (focusItem_eq_some q f hfocus).1
  have hitem := item?_focus q f hfocus
  have h1 : q.setEnabled f.id false =
      { items := q.items.map (fun it =>
          if it.id = f.id then { it with isSelected := false, isEnabled := false } else it),
        focus := none } := by
    unfold QGraphicsScene.setEnabled
    simp only [hitem, hen, Bool.true_eq_false, if_false, Bool.false_eq_true]
    rw [clearFocus_focus q f.id hf]
    rfl
  have h4 : QGraphicsScene.item?
      { items := q.items.map (fun it =>
          if it.id = f.id then { it with isSelected := false, isEnabled := false } else it),
        focus := none } f.id = some { f with isSelected := false, isEnabled := false } := by
    rw [item?_map _ _ _ _ (fun it => by split <;> rfl)]
    have : QGraphicsScene.item? { items := q.items, focus := none } f.id = some f := hitem
    rw [this]
    simp
  unfold ReallyLoseFocus
  simp only [hfocus]
  rw [h1]
  have h2 : QGraphicsScene.setSelected
      { items := q.items.map (fun it =>
          if it.id = f.id then { it with isSelected := false, isEnabled := false } else it),
        focus := none } f.id false =
      { items := q.items.map (fun it =>
          if it.id = f.id then { it with isSelected := false, isEnabled := false } else it),
        focus := none } := by
    simp only [QGraphicsScene.setSelected, QGraphicsScene.modifyItem, Bool.false_and,
      List.map_map]
    apply scene_map_congr
    intro it _
    by_cases hid : it.id = f.id <;> simp [hid]
  rw [h2]
  have h3 : QGraphicsScene.clearFocus
      { items := q.items.map (fun it =>
          if it.id = f.id then { it with isSelected := false, isEnabled := false } else it),
        focus := none } f.id =
      { items := q.items.map (fun it =>
          if it.id = f.id then { it with isSelected := false, isEnabled := false } else it),
        focus := none } := by
    simp [QGraphicsScene.clearFocus]
  rw [h3]
  unfold QGraphicsScene.setEnabled
  rw [h4]
  simp only [Bool.false_eq_true, if_false, if_true, QGraphicsScene.modifyItem, List.map_map]
  apply scene_map_congr
  intro it _
  by_cases hid : it.id = f.id <;> simp [hid]

theorem ReallyLoseFocus_then_deselect (q : QGraphicsScene)
    (hen : ∀ it ∈ q.items, it.isEnabled = true) :
    ∃ foc, (ReallyLoseFocus q).selectedItems.foldl
        (fun s item => s.setSelected item.id false) (ReallyLoseFocus q) =
      { items := q.items.map (fun it => { it with isSelected := false }), focus := foc } := by
  rw [deselect_all]
  cases hfocus : q.focusItem with
  | none =>
    refine ⟨q.focus, ?_⟩
    simp [ReallyLoseFocus, hfocus]
  | some f =>
    refine ⟨none, ?_⟩
    rw [ReallyLoseFocus_eq q f hfocus (hen f (focusItem_eq_some q f hfocus).2)]
    simp only [List.map_map]
    apply scene_map_congr
    intro it hit
    have := hen it hit
    by_cases hid : it.id = f.id <;> simp [hid, this]

theorem isEmpty_map_eq {α β : Type} (f : α → β) (l : List α) :
    (l.map f).isEmpty = l.isEmpty := by
  cases l <;> rfl

theorem filter_eligible_deselect (l : List QGraphicsItem) :
    (l.map (fun it => { it with isSelected := false })).filter
        (fun item => item.ItemIsFocusable && item.ItemIsSelectable && item.isVisible) =
      (l.filter (fun item => item.ItemIsFocusable && item.ItemIsSelectable
        && item.isVisible)).map (fun it => { it with isSelected := false }) := by
  rw [List.filter_map]
  rfl

/-- What `SetRandomFocus` does in a scene of distinct, enabled items, once the
distribution has delivered the index `i` of the eligible item `c`. -/
theorem SetRandomFocus_eq (fuel : Nat) (g g' : mt19937) (q : QGraphicsScene) (i : Nat)
    (c : QGraphicsItem) (hwf : q.WellFormed) (hen : ∀ it ∈ q.items, it.isEnabled = true)
    (hdraw : uniform_int_distribution fuel 0
      ((q.items.filter (fun item => item.ItemIsFocusable && item.ItemIsSelectable
        && item.isVisible)).length - 1) g = some (i, g'))
    (hc : (q.items.filter (fun item => item.ItemIsFocusable && item.ItemIsSelectable
        && item.isVisible))[i]? = some c) :
    SetRandomFocus fuel g q = some (g',
      { items := q.items.map (fun it => { it with isSelected := decide (it.id = c.id) }),
        focus := some c.id }) := by
  obtain ⟨foc, hprep⟩ := ReallyLoseFocus_then_deselect q hen
  have hcmem : c ∈ q.items.filter (fun item => item.ItemIsFocusable && item.ItemIsSelectable
      && item.isVisible) := List.getElem?_mem hc
  have hcq : c ∈ q.items := (List.mem_filter.mp hcmem).1
  have hcflags := (List.mem_filter.mp hcmem).2
  simp only [Bool.and_eq_true] at hcflags
  have hcen := hen c hcq
  unfold SetRandomFocus
  simp only [hprep, filter_eligible_deselect, List.length_map, isEmpty_map_eq]
  have hne : (q.items.filter (fun item => item.ItemIsFocusable && item.ItemIsSelectable
      && item.isVisible)).isEmpty = false := by
    cases hl : q.items.filter (fun item => item.ItemIsFocusable && item.ItemIsSelectable
      && item.isVisible) with
    | nil => rw [hl] at hcmem; simp at hcmem
    | cons a t => rfl
  simp only [hne, Bool.not_false, if_true, hdraw, List.getElem?_map, hc, Option.map_some']
  have hsel : QGraphicsScene.setSelected
      { items := q.items.map (fun it => { it with isSelected := false }), focus := foc }
      c.id true =
      { items := q.items.map (fun it => { it with isSelected := decide (it.id = c.id) }),
        focus := foc } := by
    simp only [QGraphicsScene.setSelected, QGraphicsScene.modifyItem, List.map_map,
      Bool.true_and]
    apply scene_map_congr
    intro it hit
    by_cases hid : it.id = c.id
    · have := WellFormed_inj q hwf it c hit hcq hid
      subst this
      simp [hcflags.1.2, hcflags.2, hcen]
    · simp [hid]
  rw [hsel]
  have hitem : QGraphicsScene.item?
      { items := q.items.map (fun it => { it with isSelected := decide (it.id = c.id) }),
        focus := foc } c.id = some { c with isSelected := true } := by
    rw [item?_map q.items foc c.id
      (fun it => { it with isSelected := decide (it.id = c.id) }) (fun _ => rfl)]
    have : QGraphicsScene.item? { items := q.items, focus := foc } c.id = some c :=
      item?_of_mem { items := q.items, focus := foc } hwf c hcq
    rw [this]
    simp
  unfold QGraphicsScene.setFocus
  rw [hitem]
  simp [hcflags.1.1, hcflags.2, hcen]

theorem filter_eligible_map_selected (l : List QGraphicsItem) (sel : QGraphicsItem → Bool) :
    (l.map (fun it => { it with isSelected := sel it })).filter
        (fun item => item.ItemIsFocusable && item.ItemIsSelectable && item.isVisible) =
      (l.filter (fun item => item.ItemIsFocusable && item.ItemIsSelectable
        && item.isVisible)).map (fun it => { it with isSelected := sel it }) := by
  rw [List.filter_map]
  rfl

/-! ## Computed and Euclidean distances -/

theorem sq_bound (d : Int) (h : d.natAbs ≤ 2 ^ 21) : d * d ≤ 2 ^ 42 ∧ 0 ≤ d * d := by
  have h1 : (d * d).natAbs = d.natAbs * d.natAbs := Int.natAbs_mul d d
  have h2 := Nat.mul_le_mul h h
  have h3 : (2 : Nat) ^ 21 * 2 ^ 21 = 2 ^ 42 := by rw [← pow_add]
  have h4 := mul_self_nonneg d
  have h5 : ((2 : Nat) ^ 42 : Int) = 2 ^ 42 := by norm_num
  constructor
  · have : ((d * d).natAbs : Int) = d * d := Int.natAbs_of_nonneg h4
    rw [← this, ← h5]
    exact_mod_cast (by omega : (d * d).natAbs ≤ 2 ^ 42)
  · exact h4

/-- The distance computed for two points with small integer coordinates: every operation
under the square root is exact. -/
theorem GetDistance_ofInt (ax ay bx by' : Int) (hax : ax.natAbs ≤ 2 ^ 20)
    (hay : ay.natAbs ≤ 2 ^ 20) (hbx : bx.natAbs ≤ 2 ^ 20) (hby : by'.natAbs ≤ 2 ^ 20) :
    GetDistance ⟨double.ofInt ax, double.ofInt ay⟩ ⟨double.ofInt bx, double.ofInt by'⟩ =
      double.sqrt (double.ofInt ((ax - bx) * (ax - bx) + (ay - by') * (ay - by'))) := by
  have e20 : (2 : Nat) ^ 20 = 1048576 := by norm_num
  have e21 : (2 : Nat) ^ 21 = 2097152 := by norm_num
  have e53 : (2 : Nat) ^ 53 = 9007199254740992 := by norm_num
  have e42 : (2 : Int) ^ 42 = 4398046511104 := by norm_num
  have hdx : (ax - bx).natAbs ≤ 2 ^ 21 := by omega
  have hdy : (ay - by').natAbs ≤ 2 ^ 21 := by omega
  obtain ⟨hx1, hx2⟩ := sq_bound _ hdx
  obtain ⟨hy1, hy2⟩ := sq_bound _ hdy
  have hxx : ((ax - bx) * (ax - bx)).natAbs = (ax - bx).natAbs * (ax - bx).natAbs :=
    Int.natAbs_mul _ _
  have hyy : ((ay - by') * (ay - by')).natAbs = (ay - by').natAbs * (ay - by').natAbs :=
    Int.natAbs_mul _ _
  unfold GetDistance
  simp only [HSub.hSub, Sub.sub, HMul.hMul, Mul.mul, HAdd.hAdd, Add.add]
  have s1 := double.sub_ofInt ax bx (by omega) (by omega) (by omega)
  have s2 := double.sub_ofInt ay by' (by omega) (by omega) (by omega)
  have m1 := double.mul_self_ofInt (ax - bx) (by omega)
  have m2 := double.mul_self_ofInt (ay - by') (by omega)
  have a1 := double.add_ofInt ((ax - bx) * (ax - bx)) ((ay - by') * (ay - by'))
    (by omega) (by omega) (by omega)
  simp only [HSub.hSub, Sub.sub, HMul.hMul, Mul.mul, HAdd.hAdd, Add.add] at s1 s2 m1 m2 a1
  rw [s1, s2, m1, m2, a1]

theorem EuclideanDistanceSq_ofInt (ax ay bx by' : Int) (hax : ax.natAbs ≤ 2 ^ 20)
    (hay : ay.natAbs ≤ 2 ^ 20) (hbx : bx.natAbs ≤ 2 ^ 20) (hby : by'.natAbs ≤ 2 ^ 20) :
    EuclideanDistanceSq ⟨double.ofInt ax, double.ofInt ay⟩ ⟨double.ofInt bx, double.ofInt by'⟩ =
      ((ax - bx) * (ax - bx) + (ay - by') * (ay - by')) * (2 ^ 1074 * 2 ^ 1074) := by
  have e20 : (2 : Nat) ^ 20 = 1048576 := by norm_num
  have e53 : (2 : Nat) ^ 53 = 9007199254740992 := by norm_num
  unfold EuclideanDistanceSq
  simp only
  rw [double.toUnits_ofInt ax (by omega), double.toUnits_ofInt ay (by omega),
    double.toUnits_ofInt bx (by omega), double.toUnits_ofInt by' (by omega)]
  ring
/-- For points with small integer coordinates the computed distances compare as the Euclidean
distances do, and they are finite. -/
theorem GetDistance_small_integer (a b c : QPointF) (ha : a.IsSmallInteger)
    (hb : b.IsSmallInteger) (hc : c.IsSmallInteger) :
    (GetDistance a b < GetDistance a c ↔
      EuclideanDistanceSq a b < EuclideanDistanceSq a c) ∧
    GetDistance a b < DBL_MAX ∧ (GetDistance a b).isNaN = false := by
  obtain ⟨ax, ay, hax, hay, rfl⟩ := ha
  obtain ⟨bx, by', hbx, hby, rfl⟩ := hb
  obtain ⟨cx, cy, hcx, hcy, rfl⟩ := hc
  have e20 : (2 : Nat) ^ 20 = 1048576 := by norm_num
  have e21 : (2 : Nat) ^ 21 = 2097152 := by norm_num
  have e42 : (2 : Int) ^ 42 = 4398046511104 := by norm_num
  have e44 : (2 : Int) ^ 44 = 17592186044416 := by norm_num
  obtain ⟨hbx1, hbx2⟩ := sq_bound (ax - bx) (by omega)
  obtain ⟨hby1, hby2⟩ := sq_bound (ay - by') (by omega)
  obtain ⟨hcx1, hcx2⟩ := sq_bound (ax - cx) (by omega)
  obtain ⟨hcy1, hcy2⟩ := sq_bound (ay - cy) (by omega)
  rw [GetDistance_ofInt ax ay bx by' hax hay hbx hby,
    GetDistance_ofInt ax ay cx cy hax hay hcx hcy,
    EuclideanDistanceSq_ofInt ax ay bx by' hax hay hbx hby,
    EuclideanDistanceSq_ofInt ax ay cx cy hax hay hcx hcy]
  generalize hB : (ax - bx) * (ax - bx) + (ay - by') * (ay - by') = B
  generalize hC : (ax - cx) * (ax - cx) + (ay - cy) * (ay - cy) = C
  have hB0 : 0 ≤ B := by omega
  have hC0 : 0 ≤ C := by omega
  have hB1 : B < 2 ^ 44 := by omega
  have hC1 : C < 2 ^ 44 := by omega
  have hK : (0 : Int) < 2 ^ 1074 * 2 ^ 1074 := by positivity
  have hmax := double.sqrt_ofInt_lt_max B hB0 hB1
  refine ⟨?_, hmax, double.not_isNaN_of_lt_left _ _ hmax⟩
  constructor
  · intro h
    by_contra hcon
    have hle : C ≤ B := by
      by_contra hlt
      exact hcon (Int.mul_lt_mul_of_pos_right (by omega) hK)
    by_cases heq : C = B
    · rw [heq] at h
      exact double.lt_irrefl _ h
    · exact double.lt_irrefl _
        (double.lt_trans _ _ _ h (double.sqrt_ofInt_lt C B hC0 (by omega) hB1))
  · intro h
    have hlt : B < C := by
      by_contra hge
      have : C * (2 ^ 1074 * 2 ^ 1074) ≤ B * (2 ^ 1074 * 2 ^ 1074) :=
        Int.mul_le_mul_of_nonneg_right (by omega) (le_of_lt hK)
      omega
    exact double.sqrt_ofInt_lt B C hB0 hlt hC1

/-- Source `GetClosest` on a focus item and items with small integer coordinates: the first
of the visible, focusable items of minimum Euclidean distance. -/
theorem GetClosest_small_integer (focus : QGraphicsItem) (items : List QGraphicsItem)
    (hf : focus.pos.IsSmallInteger) (hitems : ∀ c ∈ items, c.pos.IsSmallInteger) :
    (GetClosest (some focus) items = .ok none ∧
      ∀ c ∈ items, ¬ (c.ItemIsFocusable = true ∧ c.isVisible = true)) ∨
    (∃ pre b post, items = pre ++ b :: post ∧
      GetClosest (some focus) items = .ok (some b) ∧
      b.ItemIsFocusable = true ∧ b.isVisible = true ∧
      (∀ c ∈ pre, c.ItemIsFocusable = true → c.isVisible = true →
        EuclideanDistanceSq focus.pos b.pos < EuclideanDistanceSq focus.pos c.pos) ∧
      (∀ c ∈ post, c.ItemIsFocusable = true → c.isVisible = true →
        EuclideanDistanceSq focus.pos b.pos ≤ EuclideanDistanceSq focus.pos c.pos)) := by
  rcases GetClosest_spec focus items with ⟨h1, h2⟩ |
    ⟨pre, b, post, hl, hg, hbf, hbv, hbd, hpre, hpost⟩
  · refine Or.inl ⟨h1, ?_⟩
    intro c hc hcc
    exact h2 c hc hcc.1 hcc.2
      (GetDistance_small_integer focus.pos c.pos c.pos hf (hitems c hc) (hitems c hc)).2.1
  · have hbm : b ∈ items := by rw [hl]; simp
    refine Or.inr ⟨pre, b, post, hl, hg, hbf, hbv, ?_, ?_⟩
    · intro c hc hcf hcv
      have hcm : c ∈ items := by rw [hl]; simp [hc]
      have hd := GetDistance_small_integer focus.pos b.pos c.pos hf (hitems b hbm)
        (hitems c hcm)
      have hd' := GetDistance_small_integer focus.pos c.pos b.pos hf (hitems c hcm)
        (hitems b hbm)
      rcases hpre c hc hcf hcv with h | h
      · exact hd.1.mp h
      · rw [hd'.2.2] at h
        cases h
    · intro c hc hcf hcv
      have hcm : c ∈ items := by rw [hl]; simp [hc]
      have hd' := GetDistance_small_integer focus.pos c.pos b.pos hf (hitems c hcm)
        (hitems b hbm)
      have := hpost c hc hcf hcv
      have h2 : ¬ EuclideanDistanceSq focus.pos c.pos < EuclideanDistanceSq focus.pos b.pos :=
        fun h => this (hd'.1.mpr h)
      omega

/-! ## Lemmas on the random generator -/

namespace mt19937

theorem shiftRight_le_self (n k : Nat) : n >>> k ≤ n := by
  rw [Nat.shiftRight_eq_div_pow]
  exact Nat.div_le_self _ _

theorem twistWord_lt (x : List Nat) (k : Nat) (h : ∀ w ∈ x, w < 2 ^ 32) :
    twistWord x k < 2 ^ 32 := by
  have hget : ∀ i, x.getD i 0 < 2 ^ 32 := by
    intro i
    rw [List.getD_eq_getElem?_getD]
    cases hi : x[i]? with
    | none => simp
    | some w => exact h w (List.getElem?_mem hi)
  unfold twistWord
  simp only
  apply Nat.xor_lt_two_pow
  · apply Nat.xor_lt_two_pow (hget _)
    apply Nat.lt_of_le_of_lt (shiftRight_le_self _ _)
    apply Nat.or_lt_two_pow
    · exact Nat.lt_of_le_of_lt Nat.and_le_right (by norm_num : 0x80000000 < 2 ^ 32)
    · exact Nat.lt_of_le_of_lt Nat.and_le_right (by norm_num : 0x7fffffff < 2 ^ 32)
  · split <;> norm_num

theorem gen_rand_loop_lt (n : Nat) : ∀ (k : Nat) (x : List Nat), (∀ w ∈ x, w < 2 ^ 32) →
    ∀ w ∈ gen_rand_loop n k x, w < 2 ^ 32 := by
  induction n with
  | zero => intro k x h; simpa [gen_rand_loop] using h
  | succ n ih =>
    intro k x h
    unfold gen_rand_loop
    apply ih
    intro w hw
    rcases List.mem_or_eq_of_mem_set hw with hw | rfl
    · exact h w hw
    · exact twistWord_lt x k h

theorem gen_rand_lt (x : List Nat) (h : ∀ w ∈ x, w < 2 ^ 32) :
    ∀ w ∈ gen_rand x, w < 2 ^ 32 := by
  unfold gen_rand
  exact gen_rand_loop_lt _ _ x h

theorem temper_lt (z : Nat) (h : z < 2 ^ 32) : temper z < 2 ^ 32 := by
  unfold temper
  simp only
  have h1 : z ^^^ (z >>> 11 &&& 0xffffffff) < 2 ^ 32 :=
    Nat.xor_lt_two_pow h (Nat.lt_of_le_of_lt Nat.and_le_right
      (by norm_num : 0xffffffff < 2 ^ 32))
  have h2 : (z ^^^ (z >>> 11 &&& 0xffffffff)) ^^^
      ((z ^^^ (z >>> 11 &&& 0xffffffff)) <<< 7 &&& 0x9d2c5680) < 2 ^ 32 :=
    Nat.xor_lt_two_pow h1 (Nat.lt_of_le_of_lt Nat.and_le_right
      (by norm_num : 0x9d2c5680 < 2 ^ 32))
  have h3 := Nat.xor_lt_two_pow h2 (Nat.lt_of_le_of_lt
    (Nat.and_le_right (n := ((z ^^^ (z >>> 11 &&& 0xffffffff)) ^^^
      ((z ^^^ (z >>> 11 &&& 0xffffffff)) <<< 7 &&& 0x9d2c5680)) <<< 15) (m := 0xefc60000))
    (by norm_num : 0xefc60000 < 2 ^ 32))
  exact Nat.xor_lt_two_pow h3 (Nat.lt_of_le_of_lt (shiftRight_le_self _ _) h3)

/-- An output of the generator is a 32-bit word, and the state it leaves is well formed. -/
theorem next_lt (g : mt19937) (h : g.WellFormed) : g.next.1 < 2 ^ 32 ∧ g.next.2.WellFormed := by
  have hget : ∀ (x : List Nat) (i : Nat), (∀ w ∈ x, w < 2 ^ 32) → x.getD i 0 < 2 ^ 32 := by
    intro x i hx
    rw [List.getD_eq_getElem?_getD]
    cases hi : x[i]? with
    | none => simp
    | some w => exact hx w (List.getElem?_mem hi)
  by_cases hp : g.p ≥ 624
  · have hx := gen_rand_lt g.x h
    have e : g.next = (temper ((gen_rand g.x).getD 0 0), { x := gen_rand g.x, p := 1 }) := by
      simp only [next, hp, if_true]
    rw [e]
    generalize gen_rand g.x = y at hx
    exact ⟨temper_lt _ (hget _ _ hx), hx⟩
  · have e : g.next = (temper (g.x.getD g.p 0), { x := g.x, p := g.p + 1 }) := by
      simp only [next, hp, if_false]
    rw [e]
    exact ⟨temper_lt _ (hget _ _ h), h⟩

theorem seedTable_lt (n : Nat) : ∀ (i prev : Nat), ∀ w ∈ seedTable n i prev, w < 2 ^ 32 := by
  induction n with
  | zero => intro i prev w hw; simp [seedTable] at hw
  | succ n ih =>
    intro i prev w hw
    unfold seedTable at hw
    simp only [List.mem_cons] at hw
    rcases hw with rfl | hw
    · exact Nat.mod_lt _ (by norm_num)
    · exact ih _ _ w hw

/-- The state that the constructor builds is well formed. -/
theorem seed_WellFormed (value : Nat) : (seed value).WellFormed := by
  intro w hw
  unfold seed at hw
  simp only [List.mem_cons] at hw
  rcases hw with rfl | hw
  · exact Nat.mod_lt _ (by norm_num)
  · exact seedTable_lt _ _ _ w hw

end mt19937

/-- The index `_S_nd` returns for a 32-bit output of the generator is below `range`. -/
theorem S_nd_index_lt (ret range : Nat) (h : ret < 2 ^ 32) (hr : 0 < range) :
    ret * range / 2 ^ 32 < range := by
  apply Nat.div_lt_of_lt_mul
  exact Nat.mul_lt_mul_of_pos_right h hr

/-- The generator agrees with the reference outputs of MT19937: the first two outputs
for seed 0 and the first output for the default seed 5489. -/
theorem mt19937_reference_outputs :
    (mt19937.seed 0).next.1 = 2357136044 ∧
    (mt19937.seed 0).next.2.next.1 = 2546248239 ∧
    (mt19937.seed 5489).next.1 = 3499211612 := by
  decide!
theorem mt19937.discard_WellFormed (z : Nat) : ∀ g : mt19937, g.WellFormed →
    (mt19937.discard z g).WellFormed := by
  induction z with
  | zero => intro g h; exact h
  | succ z ih => intro g h; exact ih _ (mt19937.next_lt g h).2

/-- The loop of `_S_nd`, entered with a rejected product: when the outputs of `g` are
rejected `m` times and then accepted, the loop returns the accepted product, provided the
fuel allows `m + 1` draws. -/
theorem S_nd_loop_returns (range : Nat) (m : Nat) :
    ∀ (fuel product : Nat) (g : mt19937), m + 1 ≤ fuel →
      product % 2 ^ 32 < (2 ^ 32 - range) % range →
      (∀ j < m, S_nd_rejects (g.discard j) range) →
      ¬ S_nd_rejects (g.discard m) range →
      S_nd_loop range ((2 ^ 32 - range) % range) fuel product g =
        some ((g.discard m).next.1 * range, (g.discard m).next.2) := by
  induction m with
  | zero =>
    intro fuel product g hfuel hrej _ hacc
    obtain ⟨f, rfl⟩ : ∃ f, fuel = f + 1 := ⟨fuel - 1, by omega⟩
    unfold S_nd_loop
    simp only [hrej, if_true]
    simp only [mt19937.discard, S_nd_rejects] at hacc ⊢
    cases f <;> simp only [S_nd_loop, if_neg hacc]
  | succ m ih =>
    intro fuel product g hfuel hrej hall hacc
    obtain ⟨f, rfl⟩ : ∃ f, fuel = f + 1 := ⟨fuel - 1, by omega⟩
    unfold S_nd_loop
    simp only [hrej, if_true]
    have h0 : S_nd_rejects g range := hall 0 (by omega)
    exact ih f _ g.next.2 (by omega) h0 (fun j hj => hall (j + 1) (by omega)) hacc

/-- When the outputs of `g` are rejected `k` times and then accepted, `_S_nd` returns the
high word of the accepted product, provided the fuel allows `k` further draws. -/
theorem S_nd_returns (fuel k : Nat) (g : mt19937) (range : Nat) (hr : 0 < range)
    (hfuel : k ≤ fuel)
    (hall : ∀ j < k, S_nd_rejects (g.discard j) range)
    (hacc : ¬ S_nd_rejects (g.discard k) range) :
    S_nd fuel g range =
      some ((g.discard k).next.1 * range / 2 ^ 32, (g.discard k).next.2) := by
  cases k with
  | zero =>
    simp only [mt19937.discard, S_nd_rejects] at hacc ⊢
    unfold S_nd
    simp only
    split
    · cases fuel <;> simp only [S_nd_loop, if_neg hacc]
    · rfl
  | succ k =>
    have h0 : S_nd_rejects g range := hall 0 (by omega)
    have hlow : g.next.1 * range % 2 ^ 32 < range := by
      unfold S_nd_rejects at h0
      exact Nat.lt_trans h0 (Nat.mod_lt _ hr)
    unfold S_nd
    simp only [hlow, if_true]
    rw [S_nd_loop_returns range k fuel _ g.next.2 hfuel h0
      (fun j hj => hall (j + 1) (by omega)) hacc]
    rfl

/-- The distribution on `0 .. b`: when the outputs of `g` are rejected `k` times and then
accepted, it returns the high word of the accepted product. -/
theorem uniform_int_distribution_returns (fuel k b : Nat) (g : mt19937) (hb : b < 0xffffffff)
    (hfuel : k ≤ fuel)
    (hall : ∀ j < k, S_nd_rejects (g.discard j) (b + 1))
    (hacc : ¬ S_nd_rejects (g.discard k) (b + 1)) :
    uniform_int_distribution fuel 0 b g =
      some ((g.discard k).next.1 * (b + 1) / 2 ^ 32, (g.discard k).next.2) := by
  unfold uniform_int_distribution
  simp only [Nat.sub_zero, gt_iff_lt, hb, if_true, Nat.add_zero]
  rw [S_nd_returns fuel k g (b + 1) (by omega) hfuel hall hacc]
/-- Two successive calls of `SetRandomFocus`: the first draw rejects `k1` outputs of the
generator and accepts the next one, the second draw rejects `k2` outputs and accepts the
next one. -/
theorem two_calls_of_SetRandomFocus (fuel k1 k2 : Nat) (g0 : mt19937) (q : QGraphicsScene)
    (n : Nat) (hwf : q.WellFormed) (hen : ∀ it ∈ q.items, it.isEnabled = true)
    (hsize : q.items.length < 2 ^ 31) (hg : g0.WellFormed)
    (hn : (q.items.filter (fun item => item.ItemIsFocusable && item.ItemIsSelectable
        && item.isVisible)).length = n)
    (hpos : 0 < n) (hfuel1 : k1 ≤ fuel) (hfuel2 : k2 ≤ fuel)
    (hrej1 : ∀ j < k1, S_nd_rejects (g0.discard j) n)
    (hacc1 : ¬ S_nd_rejects (g0.discard k1) n)
    (hrej2 : ∀ j < k2, S_nd_rejects ((g0.discard k1).next.2.discard j) n)
    (hacc2 : ¬ S_nd_rejects ((g0.discard k1).next.2.discard k2) n) :
    ∃ c1 c2 q1 q2,
      (q.items.filter (fun item => item.ItemIsFocusable && item.ItemIsSelectable
        && item.isVisible))[(g0.discard k1).next.1 * n / 2 ^ 32]? = some c1 ∧
      (q.items.filter (fun item => item.ItemIsFocusable && item.ItemIsSelectable
        && item.isVisible))[((g0.discard k1).next.2.discard k2).next.1 * n / 2 ^ 32]?
          = some c2 ∧
      q1 = { items := q.items.map (fun it => { it with isSelected := decide (it.id = c1.id) }),
             focus := some c1.id } ∧
      q2 = { items := q.items.map (fun it => { it with isSelected := decide (it.id = c2.id) }),
             focus := some c2.id } ∧
      SetRandomFocus fuel g0 q = some ((g0.discard k1).next.2, q1) ∧
      SetRandomFocus fuel (g0.discard k1).next.2 q1 =
        some (((g0.discard k1).next.2.discard k2).next.2, q2) ∧
      SetRandomFocus fuel (g0.discard k1).next.2 q =
        some (((g0.discard k1).next.2.discard k2).next.2, q2) ∧
      (q2.focus = q1.focus ↔ (g0.discard k1).next.1 * n / 2 ^ 32 =
        ((g0.discard k1).next.2.discard k2).next.1 * n / 2 ^ 32) := by
  have hle : (q.items.filter (fun item => item.ItemIsFocusable && item.ItemIsSelectable
      && item.isVisible)).length ≤ q.items.length := List.length_filter_le _ _
  have h31 : (2 : Nat) ^ 31 = 2147483648 := by norm_num
  have hb : n - 1 < 0xffffffff := by omega
  have hn1 : n - 1 + 1 = n := by omega
  obtain ⟨hlt1, hg1⟩ := mt19937.next_lt _ (mt19937.discard_WellFormed k1 g0 hg)
  obtain ⟨hlt2, -⟩ := mt19937.next_lt _
    (mt19937.discard_WellFormed k2 (g0.discard k1).next.2 hg1)
  have hdraw1 : uniform_int_distribution fuel 0
      ((q.items.filter (fun item => item.ItemIsFocusable && item.ItemIsSelectable
        && item.isVisible)).length - 1) g0 =
        some ((g0.discard k1).next.1 * n / 2 ^ 32, (g0.discard k1).next.2) := by
    have := uniform_int_distribution_returns fuel k1 (n - 1) g0 hb hfuel1
      (by rw [hn1]; exact hrej1) (by rw [hn1]; exact hacc1)
    rw [hn1] at this
    rw [hn]; exact this
  have hdraw2 : uniform_int_distribution fuel 0
      ((q.items.filter (fun item => item.ItemIsFocusable && item.ItemIsSelectable
        && item.isVisible)).length - 1) (g0.discard k1).next.2 =
        some (((g0.discard k1).next.2.discard k2).next.1 * n / 2 ^ 32,
          ((g0.discard k1).next.2.discard k2).next.2) := by
    have := uniform_int_distribution_returns fuel k2 (n - 1) (g0.discard k1).next.2 hb hfuel2
      (by rw [hn1]; exact hrej2) (by rw [hn1]; exact hacc2)
    rw [hn1] at this
    rw [hn]; exact this
  generalize hi1 : (g0.discard k1).next.1 * n / 2 ^ 32 = i1 at hdraw1 ⊢
  generalize hi2 : ((g0.discard k1).next.2.discard k2).next.1 * n / 2 ^ 32 = i2 at hdraw2 ⊢
  generalize ((g0.discard k1).next.2.discard k2).next.2 = g2 at hdraw2 ⊢
  generalize hg1e : (g0.discard k1).next.2 = g1 at hdraw1 hdraw2 ⊢
  have hi1' : i1 < (q.items.filter (fun item => item.ItemIsFocusable
      && item.ItemIsSelectable && item.isVisible)).length := by
    rw [hn, ← hi1]; exact S_nd_index_lt _ _ hlt1 hpos
  have hi2' : i2 < (q.items.filter (fun item => item.ItemIsFocusable
      && item.ItemIsSelectable && item.isVisible)).length := by
    rw [hn, ← hi2]; exact S_nd_index_lt _ _ hlt2 hpos
  have hc1 := List.getElem?_eq_getElem hi1'
  have hc2 := List.getElem?_eq_getElem hi2'
  generalize hcd1 : (q.items.filter (fun item => item.ItemIsFocusable
      && item.ItemIsSelectable && item.isVisible))[i1] = c1 at hc1
  generalize hcd2 : (q.items.filter (fun item => item.ItemIsFocusable
      && item.ItemIsSelectable && item.isVisible))[i2] = c2 at hc2
  have hfirst := SetRandomFocus_eq fuel g0 g1 q i1 c1 hwf hen hdraw1 hc1
  have hsecond := SetRandomFocus_eq fuel g1 g2 q i2 c2 hwf hen hdraw2 hc2
  -- the scene left by the first call
  have hwf1 : QGraphicsScene.WellFormed
      { items := q.items.map (fun it => { it with isSelected := decide (it.id = c1.id) }),
        focus := some c1.id } := by
    unfold QGraphicsScene.WellFormed at hwf ⊢
    simpa [List.map_map, Function.comp] using hwf
  have hen1 : ∀ it ∈ q.items.map
      (fun it => { it with isSelected := decide (it.id = c1.id) }),
      it.isEnabled = true := by
    intro it hit
    obtain ⟨a, ha, rfl⟩ := List.mem_map.mp hit
    exact hen a ha
  have hsecond1 := SetRandomFocus_eq fuel g1 g2
      { items := q.items.map (fun it => { it with isSelected := decide (it.id = c1.id) }),
        focus := some c1.id } i2
      { c2 with isSelected := decide (c2.id = c1.id) } hwf1 hen1
      (by
        simp only [filter_eligible_map_selected q.items (fun it => decide (it.id = c1.id)),
          List.length_map]
        exact hdraw2)
      (by
        simp only [filter_eligible_map_selected q.items (fun it => decide (it.id = c1.id)),
          List.getElem?_map, hc2, Option.map_some'])
  refine ⟨c1, c2, _, _, hc1, hc2, rfl, rfl, hfirst, ?_, hsecond, ?_⟩
  · rw [hsecond1]
    simp only [List.map_map]
    rfl
  · simp only [Option.some.injEq]
    have hnd : ((q.items.filter (fun item => item.ItemIsFocusable
        && item.ItemIsSelectable && item.isVisible)).map (fun a => a.id)).Nodup :=
      List.Nodup.sublist (List.Sublist.map _ (List.filter_sublist _)) hwf
    constructor
    · intro hid
      have h1 : ((q.items.filter (fun item => item.ItemIsFocusable
          && item.ItemIsSelectable && item.isVisible)).map (fun a => a.id))[i1]? = some c1.id := by
        simp [List.getElem?_map, hc1]
      have h2 : ((q.items.filter (fun item => item.ItemIsFocusable
          && item.ItemIsSelectable && item.isVisible)).map (fun a => a.id))[i2]? = some c1.id := by
        simp [List.getElem?_map, hc2, hid]
      have hl1 : i1 < ((q.items.filter (fun item => item.ItemIsFocusable
          && item.ItemIsSelectable && item.isVisible)).map (fun a => a.id)).length := by
        simpa using hi1'
      have hl2 : i2 < ((q.items.filter (fun item => item.ItemIsFocusable
          && item.ItemIsSelectable && item.isVisible)).map (fun a => a.id)).length := by
        simpa using hi2'
      rw [List.getElem?_eq_getElem hl1] at h1
      rw [List.getElem?_eq_getElem hl2] at h2
      exact (List.Nodup.getElem_inj_iff hnd).mp ((Option.some.inj h1).trans (Option.some.inj h2).symm)
    · intro hi
      subst hi
      rw [hc1] at hc2
      rw [Option.some.inj hc2]
/-! ## Properties of the navigation, the key handlers and the random focus -/

/-- C1: an item returned by `GetClosestNonselectedItem` is an item of the scene that is
not selected at the time of the call and is not the focus item of the scene. -/
theorem GetClosestNonselectedItem_not_focus_not_selected (q : QGraphicsScene)
    (focus_item : Option QGraphicsItem) (direction : Direction) (r : QGraphicsItem)
    (h : GetClosestNonselectedItem q focus_item direction = .ok (some r)) :
    r ∈ q.items ∧ r.isSelected = false ∧ q.focus ≠ some r.id ∧
      q.focusItem.map (fun f => f.id) ≠ some r.id ∧ q.focusItem ≠ some r := by
  cases hfocus : q.focusItem with
  | none =>
    rw [GetClosestNonselectedItem_null q focus_item direction hfocus] at h
    split at h <;> simp at h
  | some f =>
    rw [GetClosestNonselectedItem_eq q focus_item direction f hfocus] at h
    have hmem := (GetClosest_mem _ _ r h).1
    have hr : r ∈ q.items ∧ r.isSelected = false ∧ r.id ≠ f.id := by
      split at hmem
      · have := (mem_Look q _ f hfocus r).mp hmem
        exact ⟨this.1, this.2.1, this.2.2.1⟩
      · have := (mem_Look q _ f hfocus r).mp hmem
        exact ⟨this.1, this.2.1, this.2.2.1⟩
    obtain ⟨h1, h2, h3⟩ := hr
    have hf := (focusItem_eq_some q f hfocus).1
    refine ⟨h1, h2, ?_, ?_, ?_⟩
    · rw [hf]
      intro e
      exact h3 (Option.some.inj e).symm
    · simp only [Option.map_some', ne_eq, Option.some.injEq]
      exact fun e => h3 e.symm
    · intro e
      exact h3 (by rw [Option.some.inj e])

theorem GetClosestNonselectedItem_not_focus_not_selected_witness :
    GetClosestNonselectedItem sceneTwoAbove sceneTwoAbove.focusItem .above
        = .ok (some (plainItem 2 1 (-5))) ∧
      (plainItem 2 1 (-5)) ∈ sceneTwoAbove.items ∧
      (plainItem 2 1 (-5)).isSelected = false ∧
      sceneTwoAbove.focus ≠ some (plainItem 2 1 (-5)).id ∧
      sceneTwoAbove.focusItem.map (fun f => f.id) ≠ some (plainItem 2 1 (-5)).id ∧
      sceneTwoAbove.focusItem ≠ some (plainItem 2 1 (-5)) :=
  ⟨by decide!,
    GetClosestNonselectedItem_not_focus_not_selected sceneTwoAbove
      sceneTwoAbove.focusItem .above (plainItem 2 1 (-5)) (by decide!)⟩
theorem double_literals :
    (0 : double) = .finite false 0 ∧ (1 : double) = .finite false (2 ^ 1074) ∧
    (5 : double) = .finite false (5 * 2 ^ 1074) ∧ (10 : double) = .finite false (10 * 2 ^ 1074) ∧
    (-1 : double) = .finite true (2 ^ 1074) ∧ (-5 : double) = .finite true (5 * 2 ^ 1074) ∧
    (-10 : double) = .finite true (10 * 2 ^ 1074) := by
  decide!

theorem search_functions_at_witness :
    GetStrictSearchFunction .above 5 (-1) = false ∧
    GetStrictSearchFunction .above 1 (-5) = true ∧
    GetLooseSearchFunction .above 5 (-1) = true ∧
    GetLooseSearchFunction .above 1 (-5) = true := by
  decide!

theorem distance_at_witness :
    double.sqrt ((double.finite true (5 * 2 ^ 1074) * double.finite true (5 * 2 ^ 1074)) +
      (double.finite false (2 ^ 1074) * double.finite false (2 ^ 1074))) =
      double.sqrt 26 ∧
    double.sqrt ((double.finite true (2 ^ 1074) * double.finite true (2 ^ 1074)) +
      (double.finite false (5 * 2 ^ 1074) * double.finite false (5 * 2 ^ 1074))) =
      double.sqrt 26 ∧
    double.sqrt 26 < DBL_MAX := by
  decide!

/-- The distances of the two candidates of the witness of C3 from the focus item. -/
theorem GetDistance_at_witness (p0 p1 p2 : QPointF)
    (h1x : p1.x - p0.x = 5) (h1y : p1.y - p0.y = -1)
    (h2x : p2.x - p0.x = 1) (h2y : p2.y - p0.y = -5) :
    GetDistance p0 p1 = double.sqrt 26 ∧ GetDistance p0 p2 = double.sqrt 26 := by
  rw [double_literals.2.2.1] at h1x
  rw [double_literals.2.2.2.2.1] at h1y
  rw [double_literals.2.1] at h2x
  rw [double_literals.2.2.2.2.2.1] at h2y
  have hK : (2 : Nat) ^ 1074 ≠ 0 := by positivity
  have h5K : 5 * (2 : Nat) ^ 1074 ≠ 0 := by positivity
  have e1x := double.sub_swap _ _ _ _ h1x h5K
  have e1y := double.sub_swap _ _ _ _ h1y hK
  have e2x := double.sub_swap _ _ _ _ h2x hK
  have e2y := double.sub_swap _ _ _ _ h2y h5K
  unfold GetDistance
  simp only [e1x, e1y, e2x, e2y, Bool.not_false, Bool.not_true]
  exact ⟨distance_at_witness.1, distance_at_witness.2.1⟩
theorem neg_literals :
    (-1 : double) = double.ofInt (-1) ∧ (-5 : double) = double.ofInt (-5) := by
  decide!

/-- Integer positions at the displacements `(5, -1)` and `(1, -5)` from an integer position of
magnitude at most `2 ^ 52`: the computed displacements are exact. -/
theorem displacements_at_witness (fx fy : Int) (hx : fx.natAbs ≤ 2 ^ 52)
    (hy : fy.natAbs ≤ 2 ^ 52) :
    double.ofInt (fx + 5) - double.ofInt fx = 5 ∧
    double.ofInt (fy - 1) - double.ofInt fy = -1 ∧
    double.ofInt (fx + 1) - double.ofInt fx = 1 ∧
    double.ofInt (fy - 5) - double.ofInt fy = -5 := by
  have e52 : (2 : Nat) ^ 52 = 4503599627370496 := by norm_num
  have e53 : (2 : Nat) ^ 53 = 9007199254740992 := by norm_num
  have s1 := double.sub_ofInt (fx + 5) fx (by omega) (by omega) (by omega)
  have s2 := double.sub_ofInt (fy - 1) fy (by omega) (by omega) (by omega)
  have s3 := double.sub_ofInt (fx + 1) fx (by omega) (by omega) (by omega)
  have s4 := double.sub_ofInt (fy - 5) fy (by omega) (by omega) (by omega)
  have a1 : fx + 5 - fx = 5 := by omega
  have a2 : fy - 1 - fy = -1 := by omega
  have a3 : fx + 1 - fx = 1 := by omega
  have a4 : fy - 5 - fy = -5 := by omega
  rw [a1] at s1
  rw [a2] at s2
  rw [a3] at s3
  rw [a4] at s4
  refine ⟨s1, ?_, s3, ?_⟩
  · rw [neg_literals.1]; exact s2
  · rw [neg_literals.2]; exact s4

/-- The search for `above` with the focus item at `p0` and the only two candidates at the
computed displacements `(5, -1)` and `(1, -5)`. -/
theorem search_at_witness (p0 p1 p2 : QPointF) (items : List QGraphicsItem)
    (h1x : p1.x - p0.x = 5) (h1y : p1.y - p0.y = -1)
    (h2x : p2.x - p0.x = 1) (h2y : p2.y - p0.y = -5)
    (hitems : items.Perm [itemAt 0 p0, itemAt 1 p1, itemAt 2 p2]) :
    GetDistance p0 p1 = GetDistance p0 p2 ∧
    Look ⟨items, some 0⟩ (GetStrictSearchFunction .above) = .ok [itemAt 2 p2] ∧
    GetClosestNonselectedItem ⟨items, some 0⟩ (QGraphicsScene.focusItem ⟨items, some 0⟩)
      .above = .ok (some (itemAt 2 p2)) := by
  obtain ⟨hd1, hd2⟩ := GetDistance_at_witness p0 p1 p2 h1x h1y h2x h2y
  have hlt : GetDistance p0 p2 < DBL_MAX := by
    rw [hd2]; exact distance_at_witness.2.2
  obtain ⟨s1, s2, l1, l2⟩ := search_functions_at_witness
  refine ⟨hd1.trans hd2.symm, ?_⟩
  rcases perm_three _ _ _ _ hitems with rfl | rfl | rfl | rfl | rfl | rfl
  all_goals
    simp [itemAt, GetClosestNonselectedItem, Look, LookLoop,
      GetNonSelectedNonFocusItems, QGraphicsScene.focusItem, QGraphicsScene.item?,
      Result.bind, GetClosest, GetClosestLoop, h1x, h1y, h2x, h2y, s1, s2, hlt]

/-- C3: the loose pass is consulted only when the strict pass yields nothing: whenever
some unselected non-focus item satisfies the strict predicate, `GetClosestNonselectedItem`
searches the (non-empty) strict set alone, so an item it returns is a member of the strict
set.  With the focus item at any position and the only two candidates at the computed
displacements `(5, -1)` and `(1, -5)` (the same distance away, both visible and focusable),
the strict set for `above` is exactly the candidate at `(1, -5)` and that candidate is
returned, in every iteration order of the scene.  The computed displacements are these for
every focus item at integer coordinates of magnitude at most `2 ^ 52` and candidates at the
integer coordinates `(fx + 5, fy - 1)` and `(fx + 1, fy - 5)`. -/
theorem strict_pass_before_loose_pass :
    (∀ (q : QGraphicsScene) (f c : QGraphicsItem) (direction : Direction),
      q.focusItem = some f →
      c ∈ q.items → c.isSelected = false → c.id ≠ f.id →
      GetStrictSearchFunction direction (c.pos.x - f.pos.x) (c.pos.y - f.pos.y) = true →
      ∃ vs, Look q (GetStrictSearchFunction direction) = .ok vs ∧ c ∈ vs ∧
        GetClosestNonselectedItem q (some f) direction = GetClosest (some f) vs ∧
        ∀ r, GetClosestNonselectedItem q (some f) direction = .ok (some r) →
          r ∈ vs ∧ r ∈ q.items ∧ r.isSelected = false ∧ r.id ≠ f.id ∧
          GetStrictSearchFunction direction (r.pos.x - f.pos.x) (r.pos.y - f.pos.y)
            = true) ∧
    (∀ (p0 p1 p2 : QPointF) (items : List QGraphicsItem),
      p1.x - p0.x = 5 → p1.y - p0.y = -1 → p2.x - p0.x = 1 → p2.y - p0.y = -5 →
      items.Perm [itemAt 0 p0, itemAt 1 p1, itemAt 2 p2] →
      GetDistance p0 p1 = GetDistance p0 p2 ∧
      Look ⟨items, some 0⟩ (GetStrictSearchFunction .above) = .ok [itemAt 2 p2] ∧
      GetClosestNonselectedItem ⟨items, some 0⟩ (QGraphicsScene.focusItem ⟨items, some 0⟩)
        .above = .ok (some (itemAt 2 p2))) ∧
    (∀ (fx fy : Int) (items : List QGraphicsItem),
      fx.natAbs ≤ 2 ^ 52 → fy.natAbs ≤ 2 ^ 52 →
      items.Perm [plainItem 0 fx fy, plainItem 1 (fx + 5) (fy - 1),
        plainItem 2 (fx + 1) (fy - 5)] →
      GetDistance (plainItem 0 fx fy).pos (plainItem 1 (fx + 5) (fy - 1)).pos =
        GetDistance (plainItem 0 fx fy).pos (plainItem 2 (fx + 1) (fy - 5)).pos ∧
      Look ⟨items, some 0⟩ (GetStrictSearchFunction .above)
        = .ok [plainItem 2 (fx + 1) (fy - 5)] ∧
      GetClosestNonselectedItem ⟨items, some 0⟩ (QGraphicsScene.focusItem ⟨items, some 0⟩)
        .above = .ok (some (plainItem 2 (fx + 1) (fy - 5)))) := by
  refine ⟨?_, ?_, ?_⟩
  · intro q f c direction hfocus hc hsel hid hstrict
    have hcmem := (mem_Look q (GetStrictSearchFunction direction) f hfocus c).mpr
      ⟨hc, hsel, hid, hstrict⟩
    refine ⟨_, Look_ok q _ f hfocus, hcmem, ?_, ?_⟩
    · rw [GetClosestNonselectedItem_eq q (some f) direction f hfocus]
      have hne : ((GetNonSelectedNonFocusItems q).filter (fun item =>
          GetStrictSearchFunction direction (item.pos.x - f.pos.x) (item.pos.y - f.pos.y)
            && !item.isSelected)).isEmpty = false := by
        cases hl : (GetNonSelectedNonFocusItems q).filter (fun item =>
          GetStrictSearchFunction direction (item.pos.x - f.pos.x) (item.pos.y - f.pos.y)
            && !item.isSelected) with
        | nil => rw [hl] at hcmem; simp at hcmem
        | cons a t => rfl
      simp [hne]
    · intro r hr
      rw [GetClosestNonselectedItem_eq q (some f) direction f hfocus] at hr
      have hne : ((GetNonSelectedNonFocusItems q).filter (fun item =>
          GetStrictSearchFunction direction (item.pos.x - f.pos.x) (item.pos.y - f.pos.y)
            && !item.isSelected)).isEmpty = false := by
        cases hl : (GetNonSelectedNonFocusItems q).filter (fun item =>
          GetStrictSearchFunction direction (item.pos.x - f.pos.x) (item.pos.y - f.pos.y)
            && !item.isSelected) with
        | nil => rw [hl] at hcmem; simp at hcmem
        | cons a t => rfl
      simp only [hne, Bool.false_eq_true, if_false] at hr
      have hmem := (GetClosest_mem _ _ r hr).1
      exact ⟨hmem, (mem_Look q _ f hfocus r).mp hmem⟩
  · intro p0 p1 p2 items h1x h1y h2x h2y hitems
    exact search_at_witness p0 p1 p2 items h1x h1y h2x h2y hitems
  · intro fx fy items hx hy hitems
    obtain ⟨h1x, h1y, h2x, h2y⟩ := displacements_at_witness fx fy hx hy
    have e0 : plainItem 0 fx fy = itemAt 0 ⟨double.ofInt fx, double.ofInt fy⟩ := rfl
    have e1 : plainItem 1 (fx + 5) (fy - 1) =
        itemAt 1 ⟨double.ofInt (fx + 5), double.ofInt (fy - 1)⟩ := rfl
    have e2 : plainItem 2 (fx + 1) (fy - 5) =
        itemAt 2 ⟨double.ofInt (fx + 1), double.ofInt (fy - 5)⟩ := rfl
    rw [e0, e1, e2] at hitems ⊢
    generalize double.ofInt fx = x0 at *
    generalize double.ofInt fy = y0 at *
    generalize double.ofInt (fx + 5) = x1 at *
    generalize double.ofInt (fy - 1) = y1 at *
    generalize double.ofInt (fx + 1) = x2 at *
    generalize double.ofInt (fy - 5) = y2 at *
    exact search_at_witness ⟨x0, y0⟩ ⟨x1, y1⟩ ⟨x2, y2⟩ items h1x h1y h2x h2y hitems
theorem strict_pass_before_loose_pass_witness :
    (∃ vs, Look sceneTwoAbove (GetStrictSearchFunction .above) = .ok vs ∧
      plainItem 2 1 (-5) ∈ vs ∧
      GetClosestNonselectedItem sceneTwoAbove (some (plainItem 0 0 0)) .above
        = GetClosest (some (plainItem 0 0 0)) vs ∧
      ∀ r, GetClosestNonselectedItem sceneTwoAbove (some (plainItem 0 0 0)) .above
          = .ok (some r) →
        r ∈ vs ∧ r ∈ sceneTwoAbove.items ∧ r.isSelected = false ∧
        r.id ≠ (plainItem 0 0 0).id ∧
        GetStrictSearchFunction .above (r.pos.x - (plainItem 0 0 0).pos.x)
          (r.pos.y - (plainItem 0 0 0).pos.y) = true) ∧
    GetClosestNonselectedItem sceneTwoAbove (some (plainItem 0 0 0)) .above
      = .ok (some (plainItem 2 1 (-5))) ∧
    (GetDistance ⟨0, 0⟩ ⟨5, -1⟩ = GetDistance ⟨0, 0⟩ ⟨1, -5⟩ ∧
      Look ⟨[itemAt 1 ⟨5, -1⟩, itemAt 0 ⟨0, 0⟩, itemAt 2 ⟨1, -5⟩], some 0⟩
        (GetStrictSearchFunction .above) = .ok [itemAt 2 ⟨1, -5⟩] ∧
      GetClosestNonselectedItem ⟨[itemAt 1 ⟨5, -1⟩, itemAt 0 ⟨0, 0⟩, itemAt 2 ⟨1, -5⟩], some 0⟩
        (QGraphicsScene.focusItem
          ⟨[itemAt 1 ⟨5, -1⟩, itemAt 0 ⟨0, 0⟩, itemAt 2 ⟨1, -5⟩], some 0⟩)
        .above = .ok (some (itemAt 2 ⟨1, -5⟩))) ∧
    (GetDistance (plainItem 0 100 (-7)).pos (plainItem 1 (100 + 5) (-7 - 1)).pos =
        GetDistance (plainItem 0 100 (-7)).pos (plainItem 2 (100 + 1) (-7 - 5)).pos ∧
      Look ⟨[plainItem 2 (100 + 1) (-7 - 5), plainItem 1 (100 + 5) (-7 - 1),
          plainItem 0 100 (-7)], some 0⟩ (GetStrictSearchFunction .above)
        = .ok [plainItem 2 (100 + 1) (-7 - 5)] ∧
      GetClosestNonselectedItem ⟨[plainItem 2 (100 + 1) (-7 - 5),
          plainItem 1 (100 + 5) (-7 - 1), plainItem 0 100 (-7)], some 0⟩
        (QGraphicsScene.focusItem ⟨[plainItem 2 (100 + 1) (-7 - 5),
          plainItem 1 (100 + 5) (-7 - 1), plainItem 0 100 (-7)], some 0⟩)
        .above = .ok (some (plainItem 2 (100 + 1) (-7 - 5)))) :=
  ⟨strict_pass_before_loose_pass.1 sceneTwoAbove (plainItem 0 0 0) (plainItem 2 1 (-5))
      .above (by decide!) (by decide!) (by decide!) (by decide!) (by decide!),
    by decide!,
    strict_pass_before_loose_pass.2.1 ⟨0, 0⟩ ⟨5, -1⟩ ⟨1, -5⟩
      [itemAt 1 ⟨5, -1⟩, itemAt 0 ⟨0, 0⟩, itemAt 2 ⟨1, -5⟩]
      (by decide!) (by decide!) (by decide!) (by decide!) (List.Perm.swap _ _ _),
    strict_pass_before_loose_pass.2.2 100 (-7)
      [plainItem 2 (100 + 1) (-7 - 5), plainItem 1 (100 + 5) (-7 - 1), plainItem 0 100 (-7)]
      (by decide) (by decide)
      ((List.Perm.swap _ _ _).trans
        ((List.Perm.cons _ (List.Perm.swap _ _ _)).trans (List.Perm.swap _ _ _)))⟩

/-- C4: at the displacement `(1, -5)` (an item above and slightly to the right) the strict
predicate of `below` accepts although the loose predicate of `below` rejects: the strict
test reads the sign of `dx` where it should read the sign of `dy`.  The other three
directions do what the claim says: their strict predicate implies their loose predicate
and that the off-axis magnitude is below the on-axis magnitude. -/
theorem GetStrictSearchFunction_below_accepts_above :
    (GetStrictSearchFunction .below 1 (-5) = true ∧
      GetLooseSearchFunction .below 1 (-5) = false ∧
      GetStrictSearchFunction .below (-1) 5 = false ∧
      GetLooseSearchFunction .below (-1) 5 = true) ∧
    (∀ (dx dy : double),
      (GetStrictSearchFunction .above dx dy = true →
        GetLooseSearchFunction .above dx dy = true ∧ dy < 0 ∧ dx.abs < dy.abs) ∧
      (GetStrictSearchFunction .left dx dy = true →
        GetLooseSearchFunction .left dx dy = true ∧ dx < 0 ∧ dy.abs < dx.abs) ∧
      (GetStrictSearchFunction .right dx dy = true →
        GetLooseSearchFunction .right dx dy = true ∧ dx > 0 ∧ dy.abs < dx.abs) ∧
      (GetStrictSearchFunction .below dx dy = true ↔ dx > 0 ∧ dx.abs < dy.abs) ∧
      (GetLooseSearchFunction .below dx dy = true ↔ dy > 0)) := by
  refine ⟨by decide!, ?_⟩
  intro dx dy
  refine ⟨?_, ?_, ?_, ?_, ?_⟩
  · intro h
    simp only [GetStrictSearchFunction, Bool.and_eq_true, decide_eq_true_eq] at h
    exact ⟨by simp [GetLooseSearchFunction, h.1], h.1, h.2⟩
  · intro h
    simp only [GetStrictSearchFunction, Bool.and_eq_true, decide_eq_true_eq] at h
    exact ⟨by simp [GetLooseSearchFunction, h.1], h.1, h.2⟩
  · intro h
    simp only [GetStrictSearchFunction, Bool.and_eq_true, decide_eq_true_eq] at h
    exact ⟨by simp [GetLooseSearchFunction, h.1], h.1, h.2⟩
  · simp [GetStrictSearchFunction]
  · simp [GetLooseSearchFunction]
/-- C2 fails as stated.  With the focus item at the origin, the item at `(94906265, 1)` is
farther away than the item at `(94906265, 0)`, but both computed distances are the `double`
94906265: the square root of `94906265 ^ 2 + 1` is rounded.  The loop sees a tie and keeps
the first item of the list, the farther one. -/
theorem GetClosest_returns_farther_item :
    GetClosest (some (plainItem 0 0 0)) [plainItem 1 94906265 1, plainItem 2 94906265 0]
      = .ok (some (plainItem 1 94906265 1)) ∧
    GetClosestNonselectedItem sceneRoundedTie sceneRoundedTie.focusItem .right
      = .ok (some (plainItem 1 94906265 1)) ∧
    (plainItem 2 94906265 0).ItemIsFocusable = true ∧
    (plainItem 2 94906265 0).isVisible = true ∧
    EuclideanDistanceSq (plainItem 0 0 0).pos (plainItem 2 94906265 0).pos <
      EuclideanDistanceSq (plainItem 0 0 0).pos (plainItem 1 94906265 1).pos ∧
    GetDistance (plainItem 0 0 0).pos (plainItem 1 94906265 1).pos = double.ofInt 94906265 ∧
    GetDistance (plainItem 0 0 0).pos (plainItem 2 94906265 0).pos = double.ofInt 94906265 := by
  decide!

/-- C2 (amended): `GetClosest` returns the first of the visible, focusable items of the list
whose computed distance from the focus item is minimal and below `DBL_MAX`, where the
computed distance is the `double` `sqrt(dx * dx + dy * dy)`, each operation rounded: every
visible, focusable item before the returned one has a greater computed distance (or none,
a NaN), no item after it has a smaller one.  It returns null exactly when no visible,
focusable item has a computed distance below `DBL_MAX`.  When the focus item and the items
have integer coordinates of magnitude at most `2 ^ 20`, the computed distances compare as
the Euclidean distances do: the returned item is the first of the visible, focusable items
at minimum Euclidean distance. -/
theorem GetClosest_first_of_minimum_distance :
    (∀ (focus : QGraphicsItem) (items : List QGraphicsItem),
      (GetClosest (some focus) items = .ok none ∧
        ∀ c ∈ items, c.ItemIsFocusable = true → c.isVisible = true →
          ¬ GetDistance focus.pos c.pos < DBL_MAX) ∨
      (∃ (pre : List QGraphicsItem) (b : QGraphicsItem) (post : List QGraphicsItem),
        items = pre ++ b :: post ∧
        GetClosest (some focus) items = .ok (some b) ∧
        b.ItemIsFocusable = true ∧ b.isVisible = true ∧
        GetDistance focus.pos b.pos < DBL_MAX ∧
        (∀ c ∈ pre, c.ItemIsFocusable = true → c.isVisible = true →
          GetDistance focus.pos b.pos < GetDistance focus.pos c.pos ∨
            (GetDistance focus.pos c.pos).isNaN = true) ∧
        (∀ c ∈ post, c.ItemIsFocusable = true → c.isVisible = true →
          ¬ GetDistance focus.pos c.pos < GetDistance focus.pos b.pos))) ∧
    (∀ (a b : QPointF),
      GetDistance a b =
        double.sqrt (((a.x - b.x) * (a.x - b.x)) + ((a.y - b.y) * (a.y - b.y)))) ∧
    (∀ (focus : QGraphicsItem) (items : List QGraphicsItem),
      focus.pos.IsSmallInteger → (∀ c ∈ items, c.pos.IsSmallInteger) →
      (GetClosest (some focus) items = .ok none ∧
        ∀ c ∈ items, ¬ (c.ItemIsFocusable = true ∧ c.isVisible = true)) ∨
      (∃ (pre : List QGraphicsItem) (b : QGraphicsItem) (post : List QGraphicsItem),
        items = pre ++ b :: post ∧
        GetClosest (some focus) items = .ok (some b) ∧
        b.ItemIsFocusable = true ∧ b.isVisible = true ∧
        (∀ c ∈ pre, c.ItemIsFocusable = true → c.isVisible = true →
          EuclideanDistanceSq focus.pos b.pos < EuclideanDistanceSq focus.pos c.pos) ∧
        (∀ c ∈ post, c.ItemIsFocusable = true → c.isVisible = true →
          EuclideanDistanceSq focus.pos b.pos ≤ EuclideanDistanceSq focus.pos c.pos))) :=
  ⟨fun focus items => GetClosest_spec focus items, fun _ _ => rfl,
    fun focus items hf hitems => GetClosest_small_integer focus items hf hitems⟩

theorem GetClosest_first_of_minimum_distance_witness :
    GetClosest (some (plainItem 0 0 0)) [plainItem 1 3 4, plainItem 2 0 (-2), plainItem 3 2 0]
      = .ok (some (plainItem 2 0 (-2))) ∧
    GetDistance (plainItem 0 0 0).pos (plainItem 1 3 4).pos = 5 ∧
    GetDistance (plainItem 0 0 0).pos (plainItem 2 0 (-2)).pos = 2 ∧
    GetDistance (plainItem 0 0 0).pos (plainItem 3 2 0).pos = 2 ∧
    ((GetClosest (some (plainItem 0 0 0))
        [plainItem 1 3 4, plainItem 2 0 (-2), plainItem 3 2 0] = .ok none ∧
      ∀ c ∈ [plainItem 1 3 4, plainItem 2 0 (-2), plainItem 3 2 0],
        ¬ (c.ItemIsFocusable = true ∧ c.isVisible = true)) ∨
    (∃ (pre : List QGraphicsItem) (b : QGraphicsItem) (post : List QGraphicsItem),
      [plainItem 1 3 4, plainItem 2 0 (-2), plainItem 3 2 0] = pre ++ b :: post ∧
      GetClosest (some (plainItem 0 0 0))
        [plainItem 1 3 4, plainItem 2 0 (-2), plainItem 3 2 0] = .ok (some b) ∧
      b.ItemIsFocusable = true ∧ b.isVisible = true ∧
      (∀ c ∈ pre, c.ItemIsFocusable = true → c.isVisible = true →
        EuclideanDistanceSq (plainItem 0 0 0).pos b.pos <
          EuclideanDistanceSq (plainItem 0 0 0).pos c.pos) ∧
      (∀ c ∈ post, c.ItemIsFocusable = true → c.isVisible = true →
        EuclideanDistanceSq (plainItem 0 0 0).pos b.pos ≤
          EuclideanDistanceSq (plainItem 0 0 0).pos c.pos))) :=
  ⟨by decide!, by decide!, by decide!, by decide!,
    GetClosest_first_of_minimum_distance.2.2 (plainItem 0 0 0)
      [plainItem 1 3 4, plainItem 2 0 (-2), plainItem 3 2 0]
      ⟨0, 0, by decide, by decide, rfl⟩
      (fun c hc => by
        simp only [List.mem_cons, List.mem_singleton, List.not_mem_nil, or_false] at hc
        rcases hc with rfl | rfl | rfl
        · exact ⟨3, 4, by decide, by decide, rfl⟩
        · exact ⟨0, -2, by decide, by decide, rfl⟩
        · exact ⟨2, 0, by decide, by decide, rfl⟩)⟩

/-- C5 fails as stated: in `sceneHiddenAbove` the strict set for `above` holds only the
invisible item, so `GetClosestNonselectedItem` returns null, although the item at `(5, -1)` is
visible, focusable, unselected, not the focus item and passes the loose test of `above`.
In `sceneFarRight` the item at `(2 ^ 600, 0)` is visible, focusable, unselected and in the
strict set of `right`, but its computed distance is infinite (`dx * dx` overflows), not below
`DBL_MAX`: `GetClosestNonselectedItem` returns null. -/
theorem GetClosestNonselectedItem_none_despite_loose_candidate :
    (sceneHiddenAbove.focusItem = some (plainItem 0 0 0) ∧
      GetClosestNonselectedItem sceneHiddenAbove sceneHiddenAbove.focusItem .above = .ok none ∧
      Look sceneHiddenAbove (GetLooseSearchFunction .above)
        = .ok [{ plainItem 1 0 (-5) with isVisible := false }, plainItem 2 5 (-1)] ∧
      plainItem 2 5 (-1) ∈ sceneHiddenAbove.items ∧
      (plainItem 2 5 (-1)).isVisible = true ∧
      (plainItem 2 5 (-1)).ItemIsFocusable = true ∧
      (plainItem 2 5 (-1)).isSelected = false ∧
      sceneHiddenAbove.focus ≠ some (plainItem 2 5 (-1)).id ∧
      GetLooseSearchFunction .above
        ((plainItem 2 5 (-1)).pos.x - (plainItem 0 0 0).pos.x)
        ((plainItem 2 5 (-1)).pos.y - (plainItem 0 0 0).pos.y) = true) ∧
    (sceneFarRight.focusItem = some (plainItem 0 0 0) ∧
      GetClosestNonselectedItem sceneFarRight sceneFarRight.focusItem .right = .ok none ∧
      Look sceneFarRight (GetStrictSearchFunction .right) = .ok [plainItem 1 (2 ^ 600) 0] ∧
      (plainItem 1 (2 ^ 600) 0).isVisible = true ∧
      (plainItem 1 (2 ^ 600) 0).ItemIsFocusable = true ∧
      (plainItem 1 (2 ^ 600) 0).isSelected = false ∧
      sceneFarRight.focus ≠ some (plainItem 1 (2 ^ 600) 0).id ∧
      (plainItem 1 (2 ^ 600) 0).pos = ⟨.finite false (2 ^ 600 * 2 ^ 1074), .finite false 0⟩ ∧
      GetDistance (plainItem 0 0 0).pos (plainItem 1 (2 ^ 600) 0).pos = .inf false) := by
  decide!

/-- C5 (amended): with a focus item in the scene `GetClosestNonselectedItem` always returns,
and it returns null exactly when the list it searches has no visible, focusable item whose
computed distance from the focus item is below `DBL_MAX`; that list is the strict set when
the strict set is non-empty (even if none of its items is visible and focusable) and the
loose set otherwise. -/
theorem GetClosestNonselectedItem_none_iff (q : QGraphicsScene) (f : QGraphicsItem)
    (direction : Direction) (hfocus : q.focusItem = some f) :
    ∃ vs vl r,
      Look q (GetStrictSearchFunction direction) = .ok vs ∧
      Look q (GetLooseSearchFunction direction) = .ok vl ∧
      (∀ c, c ∈ vs ↔ c ∈ q.items ∧ c.isSelected = false ∧ c.id ≠ f.id ∧
        GetStrictSearchFunction direction (c.pos.x - f.pos.x) (c.pos.y - f.pos.y) = true) ∧
      (∀ c, c ∈ vl ↔ c ∈ q.items ∧ c.isSelected = false ∧ c.id ≠ f.id ∧
        GetLooseSearchFunction direction (c.pos.x - f.pos.x) (c.pos.y - f.pos.y) = true) ∧
      GetClosestNonselectedItem q (some f) direction = .ok r ∧
      (vs ≠ [] → (r = none ↔ ∀ c ∈ vs, ¬ (c.ItemIsFocusable = true ∧ c.isVisible = true ∧
        GetDistance f.pos c.pos < DBL_MAX))) ∧
      (vs = [] → (r = none ↔ ∀ c ∈ vl, ¬ (c.ItemIsFocusable = true ∧ c.isVisible = true ∧
        GetDistance f.pos c.pos < DBL_MAX))) := by
  have heq := GetClosestNonselectedItem_eq q (some f) direction f hfocus
  by_cases hvs : ((GetNonSelectedNonFocusItems q).filter (fun item =>
      GetStrictSearchFunction direction (item.pos.x - f.pos.x) (item.pos.y - f.pos.y)
        && !item.isSelected)) = []
  · simp only [hvs, List.isEmpty_nil, if_true] at heq
    obtain ⟨r, hr, hiff⟩ := GetClosest_none_iff f ((GetNonSelectedNonFocusItems q).filter
      (fun item => GetLooseSearchFunction direction (item.pos.x - f.pos.x)
        (item.pos.y - f.pos.y) && !item.isSelected))
    exact ⟨_, _, r, Look_ok q _ f hfocus, Look_ok q _ f hfocus,
      mem_Look q _ f hfocus, mem_Look q _ f hfocus, by rw [heq, hr],
      fun h => absurd hvs h, fun _ => hiff⟩
  · have hne : ((GetNonSelectedNonFocusItems q).filter (fun item =>
        GetStrictSearchFunction direction (item.pos.x - f.pos.x) (item.pos.y - f.pos.y)
          && !item.isSelected)).isEmpty = false := by
      simpa [List.isEmpty_iff] using hvs
    simp only [hne, Bool.false_eq_true, if_false] at heq
    obtain ⟨r, hr, hiff⟩ := GetClosest_none_iff f ((GetNonSelectedNonFocusItems q).filter
      (fun item => GetStrictSearchFunction direction (item.pos.x - f.pos.x)
        (item.pos.y - f.pos.y) && !item.isSelected))
    exact ⟨_, _, r, Look_ok q _ f hfocus, Look_ok q _ f hfocus,
      mem_Look q _ f hfocus, mem_Look q _ f hfocus, by rw [heq, hr],
      fun _ => hiff, fun h => absurd h hvs⟩

theorem GetClosestNonselectedItem_none_iff_witness :
    sceneHiddenAbove.focusItem = some (plainItem 0 0 0) ∧
    ∃ vs vl r,
      Look sceneHiddenAbove (GetStrictSearchFunction .above) = .ok vs ∧
      Look sceneHiddenAbove (GetLooseSearchFunction .above) = .ok vl ∧
      (∀ c, c ∈ vs ↔ c ∈ sceneHiddenAbove.items ∧ c.isSelected = false ∧
        c.id ≠ (plainItem 0 0 0).id ∧
        GetStrictSearchFunction .above (c.pos.x - (plainItem 0 0 0).pos.x)
          (c.pos.y - (plainItem 0 0 0).pos.y) = true) ∧
      (∀ c, c ∈ vl ↔ c ∈ sceneHiddenAbove.items ∧ c.isSelected = false ∧
        c.id ≠ (plainItem 0 0 0).id ∧
        GetLooseSearchFunction .above (c.pos.x - (plainItem 0 0 0).pos.x)
          (c.pos.y - (plainItem 0 0 0).pos.y) = true) ∧
      GetClosestNonselectedItem sceneHiddenAbove (some (plainItem 0 0 0)) .above = .ok r ∧
      (vs ≠ [] → (r = none ↔ ∀ c ∈ vs, ¬ (c.ItemIsFocusable = true ∧ c.isVisible = true ∧
        GetDistance (plainItem 0 0 0).pos c.pos < DBL_MAX))) ∧
      (vs = [] → (r = none ↔ ∀ c ∈ vl, ¬ (c.ItemIsFocusable = true ∧ c.isVisible = true ∧
        GetDistance (plainItem 0 0 0).pos c.pos < DBL_MAX))) :=
  ⟨by decide!,
    GetClosestNonselectedItem_none_iff sceneHiddenAbove (plainItem 0 0 0) .above (by decide!)⟩
/-- C6 fails as stated for `GetClosestNonselectedItem` itself: on a scene without a focus
item that holds an unselected item it does not return null, `Look` dereferences the null
focus item. -/
theorem GetClosestNonselectedItem_without_focus_faults :
    sceneNoFocus.focusItem = none ∧
    (∀ direction,
      GetClosestNonselectedItem sceneNoFocus sceneNoFocus.focusItem direction
        = .fault .nullDereference) ∧
    (∀ direction,
      GetClosestNonselectedItem sceneNoFocus sceneNoFocus.focusItem direction
        ≠ .ok none) := by
  refine ⟨by decide!, ?_, ?_⟩
  · intro direction
    cases direction <;> decide!
  · intro direction
    cases direction <;> decide!

/-- C6 (amended): on a scene without a focus item the plain and the Shift key handler
return at their null test, before the search is called, and leave the scene (every
position, every selection state, the absent focus) as it is; `GetClosestNonselectedItem`
called on such a scene returns null when the scene has no unselected item and otherwise
dereferences the null focus item. -/
theorem KeyPressEvent_without_focus (q : QGraphicsScene) (event : QKeyEvent)
    (h : q.focusItem = none) :
    KeyPressEventNoModifiersArrowKey q event = .ok q ∧
    KeyPressEventShift q event = .ok q ∧
    ∀ direction, GetClosestNonselectedItem q q.focusItem direction =
      if (GetNonSelectedNonFocusItems q).isEmpty then .ok none
      else .fault .nullDereference := by
  refine ⟨?_, ?_, ?_⟩
  · simp [KeyPressEventNoModifiersArrowKey, h]
  · unfold KeyPressEventShift
    simp only [h]
    split <;> rfl
  · intro direction
    exact GetClosestNonselectedItem_null q q.focusItem direction h

theorem KeyPressEvent_without_focus_witness :
    sceneNoFocus.focusItem = none ∧
    KeyPressEventNoModifiersArrowKey sceneNoFocus ⟨.Key_Up, false, false⟩ = .ok sceneNoFocus ∧
    KeyPressEventShift sceneNoFocus ⟨.Key_Up, false, false⟩ = .ok sceneNoFocus ∧
    ∀ direction, GetClosestNonselectedItem sceneNoFocus sceneNoFocus.focusItem direction =
      if (GetNonSelectedNonFocusItems sceneNoFocus).isEmpty then .ok none
      else .fault .nullDereference :=
  ⟨by decide!, KeyPressEvent_without_focus sceneNoFocus ⟨.Key_Up, false, false⟩ (by decide!)⟩

/-- C7 fails as stated: in `sceneAllSelected` the focus item is selected, a second item is
selected, and no candidate exists for `Key_Up`.  After the Shift handler the scene has no
focus item; after the plain handler it has no focus item and no selected item. -/
theorem KeyPressEvent_without_candidate_loses_focus :
    sceneAllSelected.focus = some 0 ∧
    GetClosestNonselectedItemKey sceneAllSelected sceneAllSelected.focusItem .Key_Up
      = .ok none ∧
    KeyPressEventShift sceneAllSelected ⟨.Key_Up, false, true⟩
      = .ok { sceneAllSelected with focus := none } ∧
    KeyPressEventNoModifiersArrowKey sceneAllSelected ⟨.Key_Up, false, false⟩
      = .ok { items := [plainItem 0 0 0, plainItem 1 0 (-5)], focus := none } ∧
    sceneAllSelected.selectedItems.length = 2 ∧
    (QGraphicsScene.selectedItems
      { items := [plainItem 0 0 0, plainItem 1 0 (-5)], focus := none }).length = 0 := by
  decide!

/-- C7 (amended): when the scene has a focus item and the search finds no item for the
pressed key, no item is selected or focused anew, but the key press is not a no-op: the
Shift handler takes focus from the focus item (the selection and all positions stay);
the plain handler takes focus from the focus item and deselects every item. -/
theorem KeyPressEvent_without_candidate (q : QGraphicsScene) (f : QGraphicsItem)
    (event : QKeyEvent) (hfocus : q.focusItem = some f)
    (harrow : event.key = .Key_Up ∨ event.key = .Key_Right ∨ event.key = .Key_Down ∨
      event.key = .Key_Left)
    (hnone : GetClosestNonselectedItemKey q (some f) event.key = .ok none) :
    KeyPressEventShift q event = .ok { q with focus := none } ∧
    KeyPressEventNoModifiersArrowKey q event =
      .ok { items := q.items.map (fun it => { it with isSelected := false }),
            focus := none } := by
  have hf := (focusItem_eq_some q f hfocus).1
  constructor
  · unfold KeyPressEventShift
    simp only [hfocus, hnone, Result.bind]
    have hcount : ¬ List.count event.key
        [Key.Key_Up, Key.Key_Right, Key.Key_Down, Key.Key_Left] = 0 := by
      rcases harrow with h | h | h | h <;> rw [h] <;> decide
    simp only [hcount, if_false]
    rw [clearFocus_focus q f.id hf]
  · unfold KeyPressEventNoModifiersArrowKey
    simp only [hfocus, hnone, Result.bind, DoSelect, DoFocus]
    rw [deselect_all]
    rw [clearFocus_focus _ f.id (by simpa using hf)]

theorem KeyPressEvent_without_candidate_witness :
    sceneAllSelected.focusItem = some { plainItem 0 0 0 with isSelected := true } ∧
    GetClosestNonselectedItemKey sceneAllSelected
      (some { plainItem 0 0 0 with isSelected := true }) .Key_Up = .ok none ∧
    KeyPressEventShift sceneAllSelected ⟨.Key_Up, false, true⟩
      = .ok { sceneAllSelected with focus := none } ∧
    KeyPressEventNoModifiersArrowKey sceneAllSelected ⟨.Key_Up, false, true⟩ =
      .ok { items := sceneAllSelected.items.map (fun it => { it with isSelected := false }),
            focus := none } :=
  ⟨by decide!, by decide!,
    KeyPressEvent_without_candidate sceneAllSelected { plainItem 0 0 0 with isSelected := true }
      ⟨.Key_Up, false, true⟩ (by decide!) (Or.inl rfl) (by decide!)⟩

/-- C9 fails as stated.  In `sceneFocusUnselected` the focus item is not selected and the
item above it is an eligible candidate: after Shift+Up the candidate is selected and has
focus, but the former focus item is still not selected.  In `sceneUnselectableAbove` the
candidate is not selectable: after Shift+Up it has focus but is not selected.  A focus item
that is not selected arises from the key handlers themselves: in `sceneColumn` a plain Up
key moves focus to the middle item, which cannot be selected, and the Shift+Up key that
follows selects the top item only. -/
theorem KeyPressEventShift_does_not_select_both :
    (GetClosestNonselectedItemKey sceneFocusUnselected sceneFocusUnselected.focusItem .Key_Up
        = .ok (some (plainItem 1 0 (-5))) ∧
      KeyPressEventShift sceneFocusUnselected ⟨.Key_Up, false, true⟩ =
        .ok { items := [plainItem 0 0 0, { plainItem 1 0 (-5) with isSelected := true }],
              focus := some 1 }) ∧
    (GetClosestNonselectedItemKey sceneUnselectableAbove sceneUnselectableAbove.focusItem
        .Key_Up = .ok (some { plainItem 1 0 (-5) with ItemIsSelectable := false }) ∧
      KeyPressEventShift sceneUnselectableAbove ⟨.Key_Up, false, true⟩ =
        .ok { sceneUnselectableAbove with focus := some 1 }) ∧
    (KeyPressEventNoModifiersArrowKey sceneColumn ⟨.Key_Up, false, false⟩
        = .ok sceneColumnAfterUp ∧
      GetClosestNonselectedItemKey sceneColumnAfterUp sceneColumnAfterUp.focusItem .Key_Up
        = .ok (some (plainItem 2 0 (-10))) ∧
      KeyPressEventShift sceneColumnAfterUp ⟨.Key_Up, false, true⟩ =
        .ok { items := [plainItem 0 0 0,
                { plainItem 1 0 (-5) with ItemIsSelectable := false },
                { plainItem 2 0 (-10) with isSelected := true }],
              focus := some 2 }) := by
  decide!

/-- C9 (amended): in a scene of distinct items with a focus item, when the search finds a
candidate for the pressed key, the Shift handler makes the candidate the focus item (if it
is enabled) and selects it (if it is selectable and enabled); every other item, the former
focus item included, keeps its selection state.  So afterwards both items are selected
exactly when the candidate is selectable and enabled and the former focus item was selected
before the key press. -/
theorem KeyPressEventShift_with_candidate (q : QGraphicsScene) (f c : QGraphicsItem)
    (event : QKeyEvent) (hwf : q.WellFormed) (hfocus : q.focusItem = some f)
    (hfound : GetClosestNonselectedItemKey q (some f) event.key = .ok (some c)) :
    ∃ q', KeyPressEventShift q event = .ok q' ∧
      q'.items = q.items.map (fun it =>
        if it.id = c.id then { it with isSelected := it.ItemIsSelectable && it.isEnabled }
        else it) ∧
      q'.focus = (if c.isEnabled then some c.id else none) ∧
      f ∈ q'.items ∧
      { c with isSelected := c.ItemIsSelectable && c.isEnabled } ∈ q'.items ∧
      (∀ it ∈ q'.items, it.id = f.id → it.isSelected = f.isSelected) ∧
      (∀ it ∈ q'.items, it.id = c.id →
        it.isSelected = (c.ItemIsSelectable && c.isEnabled)) := by
  obtain ⟨harrow, hc, hcsel, hcid, hcf, hcv⟩ :=
    GetClosestNonselectedItemKey_some q f c event.key hfocus hfound
  obtain ⟨hf, hfmem⟩ := focusItem_eq_some q f hfocus
  have hcount : ¬ List.count event.key
      [Key.Key_Up, Key.Key_Right, Key.Key_Down, Key.Key_Left] = 0 := by
    rcases harrow with h | h | h | h <;> rw [h] <;> decide
  have hitems : (q.setSelected c.id true).items = q.items.map (fun it =>
      if it.id = c.id then { it with isSelected := it.ItemIsSelectable && it.isEnabled }
      else it) := by
    simp only [QGraphicsScene.setSelected, QGraphicsScene.modifyItem, Bool.true_and]
    apply List.map_congr_left
    intro it hit
    by_cases hid : it.id = c.id
    · have := WellFormed_inj q hwf it c hit hc hid
      subst this
      simp [hcv]
    · simp [hid]
  have hitem? : ((q.setSelected c.id true).clearFocus f.id).item? c.id =
      some { c with isSelected := c.ItemIsSelectable && c.isEnabled } := by
    have h1 : (q.setSelected c.id true).focus = some f.id := by
      simpa [QGraphicsScene.setSelected, QGraphicsScene.modifyItem] using hf
    rw [clearFocus_focus _ f.id h1]
    have h2 := item?_modifyItem q c.id c.id (fun item =>
      { item with
        isSelected := true && item.ItemIsSelectable && item.isEnabled && item.isVisible })
      (fun _ => rfl)
    simp only [QGraphicsScene.item?] at h2 ⊢
    simp only [QGraphicsScene.setSelected]
    rw [h2]
    have h3 := item?_of_mem q hwf c hc
    simp only [QGraphicsScene.item?] at h3
    rw [h3]
    simp [hcv]
  have hres : KeyPressEventShift q event = .ok
      { items := (q.setSelected c.id true).items,
        focus := if c.isEnabled then some c.id else none } := by
    unfold KeyPressEventShift
    simp only [hcount, if_false, hfocus, hfound, Result.bind]
    unfold QGraphicsScene.setFocus
    rw [hitem?]
    have h1 : (q.setSelected c.id true).focus = some f.id := by
      simpa [QGraphicsScene.setSelected, QGraphicsScene.modifyItem] using hf
    rw [clearFocus_focus _ f.id h1]
    simp only [hcf, hcv, Bool.and_true]
    cases hen : c.isEnabled <;> simp
  refine ⟨_, hres, hitems, rfl, ?_, ?_, ?_, ?_⟩
  · simp only [hitems, List.mem_map]
    have hfc : ¬ f.id = c.id := fun e => hcid e.symm
    exact ⟨f, hfmem, by simp [hfc]⟩
  · simp only [hitems, List.mem_map]
    exact ⟨c, hc, by simp⟩
  · simp only [hitems, List.mem_map]
    rintro it ⟨a, ha, rfl⟩ hid
    by_cases hac : a.id = c.id
    · simp only [hac, if_true] at hid
      exact absurd hid.symm (by simpa using fun e => hcid e.symm)
    · simp only [hac, if_false] at hid ⊢
      rw [WellFormed_inj q hwf a f ha hfmem hid]
  · simp only [hitems, List.mem_map]
    rintro it ⟨a, ha, rfl⟩ hid
    by_cases hac : a.id = c.id
    · have := WellFormed_inj q hwf a c ha hc hac
      subst this
      simp
    · simp only [hac, if_false] at hid

theorem KeyPressEventShift_with_candidate_witness :
    sceneFocusSelected.WellFormed ∧
    ∃ q', KeyPressEventShift sceneFocusSelected ⟨.Key_Up, false, true⟩ = .ok q' ∧
      q'.items = sceneFocusSelected.items.map (fun it =>
        if it.id = (plainItem 1 0 (-5)).id then
          { it with isSelected := it.ItemIsSelectable && it.isEnabled }
        else it) ∧
      q'.focus = (if (plainItem 1 0 (-5)).isEnabled then some (plainItem 1 0 (-5)).id
        else none) ∧
      { plainItem 0 0 0 with isSelected := true } ∈ q'.items ∧
      { plainItem 1 0 (-5) with
        isSelected := (plainItem 1 0 (-5)).ItemIsSelectable
          && (plainItem 1 0 (-5)).isEnabled } ∈ q'.items ∧
      (∀ it ∈ q'.items, it.id = ({ plainItem 0 0 0 with isSelected := true }).id →
        it.isSelected = ({ plainItem 0 0 0 with isSelected := true }).isSelected) ∧
      (∀ it ∈ q'.items, it.id = (plainItem 1 0 (-5)).id →
        it.isSelected = ((plainItem 1 0 (-5)).ItemIsSelectable
          && (plainItem 1 0 (-5)).isEnabled)) :=
  ⟨by decide!,
    KeyPressEventShift_with_candidate sceneFocusSelected
      { plainItem 0 0 0 with isSelected := true } (plainItem 1 0 (-5))
      ⟨.Key_Up, false, true⟩ (by decide!) (by decide!) (by decide!)⟩

/-- C10 fails as stated.  In `sceneSeven` all seven items are eligible.  Starting from the
generator constructed from seed 0, the first call of `SetRandomFocus` gives focus to item 3;
the second call, which continues with the generator state the first call left, gives focus to
item 4, both on the scene the first call produced and on the identical scene `sceneSeven`. -/
theorem SetRandomFocus_second_call_differs :
    (SetRandomFocus 0 (mt19937.seed 0) sceneSeven).map (fun r => r.2.focus)
      = some (some 3) ∧
    ((SetRandomFocus 0 (mt19937.seed 0) sceneSeven).bind
      (fun r => SetRandomFocus 0 r.1 r.2)).map (fun r => r.2.focus) = some (some 4) ∧
    ((SetRandomFocus 0 (mt19937.seed 0) sceneSeven).bind
      (fun r => SetRandomFocus 0 r.1 sceneSeven)).map (fun r => r.2.focus)
      = some (some 4) := by
  decide!

/-- C10 (amended): the generator of `SetRandomFocus` is constructed once and keeps its state
between calls.  In a scene of distinct, enabled items of which `n ≥ 1` are visible, focusable
and selectable, a call draws with the generator in the state `g0` the preceding call left (the
state constructed from seed 0 at the first call): the distribution rejects `k1` outputs and
accepts the next one, `x`; the call returns, gives focus to the eligible item at index
`x * n / 2 ^ 32`, selects it, deselects all other items and leaves the generator advanced.
The next call draws from the advanced state, on the scene left by the first call as well as
on the original scene, and chooses the same item as the first call exactly when the two
indices drawn are equal. -/
theorem SetRandomFocus_twice (fuel k1 k2 : Nat) (g0 : mt19937) (q : QGraphicsScene)
    (n : Nat) (hwf : q.WellFormed) (hen : ∀ it ∈ q.items, it.isEnabled = true)
    (hsize : q.items.length < 2 ^ 31) (hg : g0.WellFormed)
    (hn : (q.items.filter (fun item => item.ItemIsFocusable && item.ItemIsSelectable
        && item.isVisible)).length = n)
    (hpos : 0 < n) (hfuel1 : k1 ≤ fuel) (hfuel2 : k2 ≤ fuel)
    (hrej1 : ∀ j < k1, S_nd_rejects (g0.discard j) n)
    (hacc1 : ¬ S_nd_rejects (g0.discard k1) n)
    (hrej2 : ∀ j < k2, S_nd_rejects ((g0.discard k1).next.2.discard j) n)
    (hacc2 : ¬ S_nd_rejects ((g0.discard k1).next.2.discard k2) n) :
    ∃ c1 c2 q1 q2,
      (q.items.filter (fun item => item.ItemIsFocusable && item.ItemIsSelectable
        && item.isVisible))[(g0.discard k1).next.1 * n / 2 ^ 32]? = some c1 ∧
      (q.items.filter (fun item => item.ItemIsFocusable && item.ItemIsSelectable
        && item.isVisible))[((g0.discard k1).next.2.discard k2).next.1 * n / 2 ^ 32]?
          = some c2 ∧
      q1 = { items := q.items.map (fun it => { it with isSelected := decide (it.id = c1.id) }),
             focus := some c1.id } ∧
      q2 = { items := q.items.map (fun it => { it with isSelected := decide (it.id = c2.id) }),
             focus := some c2.id } ∧
      SetRandomFocus fuel g0 q = some ((g0.discard k1).next.2, q1) ∧
      SetRandomFocus fuel (g0.discard k1).next.2 q1 =
        some (((g0.discard k1).next.2.discard k2).next.2, q2) ∧
      SetRandomFocus fuel (g0.discard k1).next.2 q =
        some (((g0.discard k1).next.2.discard k2).next.2, q2) ∧
      (q2.focus = q1.focus ↔ (g0.discard k1).next.1 * n / 2 ^ 32 =
        ((g0.discard k1).next.2.discard k2).next.1 * n / 2 ^ 32) :=
  two_calls_of_SetRandomFocus fuel k1 k2 g0 q n hwf hen hsize hg hn hpos hfuel1 hfuel2
    hrej1 hacc1 hrej2 hacc2

theorem SetRandomFocus_twice_witness :
    ((mt19937.seed 0).discard 0).next.1 * 7 / 2 ^ 32 = 3 ∧
    (((mt19937.seed 0).discard 0).next.2.discard 0).next.1 * 7 / 2 ^ 32 = 4 ∧
    ∃ c1 c2 q1 q2,
      (sceneSeven.items.filter (fun item => item.ItemIsFocusable && item.ItemIsSelectable
        && item.isVisible))[((mt19937.seed 0).discard 0).next.1 * 7 / 2 ^ 32]? = some c1 ∧
      (sceneSeven.items.filter (fun item => item.ItemIsFocusable && item.ItemIsSelectable
        && item.isVisible))[(((mt19937.seed 0).discard 0).next.2.discard 0).next.1 * 7
          / 2 ^ 32]? = some c2 ∧
      q1 = { items := sceneSeven.items.map
              (fun it => { it with isSelected := decide (it.id = c1.id) }),
             focus := some c1.id } ∧
      q2 = { items := sceneSeven.items.map
              (fun it => { it with isSelected := decide (it.id = c2.id) }),
             focus := some c2.id } ∧
      SetRandomFocus 0 (mt19937.seed 0) sceneSeven =
        some (((mt19937.seed 0).discard 0).next.2, q1) ∧
      SetRandomFocus 0 ((mt19937.seed 0).discard 0).next.2 q1 =
        some ((((mt19937.seed 0).discard 0).next.2.discard 0).next.2, q2) ∧
      SetRandomFocus 0 ((mt19937.seed 0).discard 0).next.2 sceneSeven =
        some ((((mt19937.seed 0).discard 0).next.2.discard 0).next.2, q2) ∧
      (q2.focus = q1.focus ↔ ((mt19937.seed 0).discard 0).next.1 * 7 / 2 ^ 32 =
        (((mt19937.seed 0).discard 0).next.2.discard 0).next.1 * 7 / 2 ^ 32) :=
  ⟨by decide!, by decide!,
    SetRandomFocus_twice 0 0 0 (mt19937.seed 0) sceneSeven 7 (by decide) (by decide!)
      (by decide) (mt19937.seed_WellFormed 0) (by decide!) (by decide) (by decide) (by decide)
      (fun j hj => absurd hj (Nat.not_lt_zero j)) (by decide!)
      (fun j hj => absurd hj (Nat.not_lt_zero j)) (by decide!)⟩
end ribi
